import Mathlib
/-!
Verification development for the ubersquadrat-optimizer repository.
The JavaScript sources are shallowly embedded: points and coordinates are
modelled with exact rationals, JavaScript `Set`s of `"i,j"` keys with lists of
integer pairs, the external services (Turf.js geometry, Overpass, BRouter)
with explicit function parameters, and the imperative loops with
fuel-indexed structural recursions that execute exactly as many iterations
as the source loops do.
-/
/- The Batteries rational-number operations are `@[irreducible]`; the
witness evaluations below run them in the kernel. -/
attribute [local semireducible] Rat.add Rat.sub Rat.mul Rat.inv

namespace UberSq

/-- A `{lat, lon}` point, with exact rational coordinates. -/
structure Point where
  lat : ℚ
  lon : ℚ
deriving DecidableEq, Repr, Inhabited

/-! ## TSP solver (`src/logic/tsp-solver.js`)

`turf.distance` (geodesic distance between two points) is modelled by an
explicit distance-function parameter `d`; the theorems assume only what the
geodesic distance satisfies (symmetry).
-/
/-- Sum of the distances along a path starting at `x` through the list. -/
def pathD (d : Point → Point → ℚ) : Point → List Point → ℚ
  | _, [] => 0
  | x, y :: t => d x y + pathD d y t

/-- `calculateRouteDistance(route)`: total length of the polyline through the
route, i.e. the sum of successive pairwise distances (`turf.length` of the
linestring). Routes with fewer than 2 points have length 0. -/
def calculateRouteDistance (d : Point → Point → ℚ) : List Point → ℚ
  | [] => 0
  | x :: t => pathD d x t

/-- Index of the first point of `pts` at minimal distance from `cur`
(`turf.nearestPoint`, which keeps the first strict minimum while scanning). -/
def nearestIndex (d : Point → Point → ℚ) (cur : Point) : List Point → Nat
  | [] => 0
  | p :: rest =>
    let restIdx := nearestIndex d cur rest
    match rest with
    | [] => 0
    | _ =>
      if d cur (rest.getD restIdx default) < d cur p then restIdx + 1 else 0

/-- The greedy construction loop of `nearestNeighbor`: repeatedly move to the
closest unvisited point and remove it (`unvisited.splice`). `fuel` equals the
number of remaining iterations (the JS loop runs once per unvisited point). -/
def nnLoop (d : Point → Point → ℚ) : Nat → Point → List Point → List Point
  | 0, _, _ => []
  | fuel + 1, cur, unvisited =>
    match unvisited with
    | [] => []
    | _ :: _ =>
      let k := nearestIndex d cur unvisited
      let p := unvisited.getD k default
      p :: nnLoop d fuel p (unvisited.eraseIdx k)

/-- `nearestNeighbor(points, startPoint, roundtrip)` from the source:
greedy nearest-neighbor tour construction, with the source's special cases
for 0 and 1 points, appending the start again when `roundtrip`. -/
def nearestNeighbor (d : Point → Point → ℚ) (points : List Point)
    (startPoint : Point) (roundtrip : Bool) : List Point :=
  if points.length = 0 then [startPoint]
  else if points.length = 1 then
    if roundtrip then [startPoint, points.getD 0 default, startPoint]
    else [startPoint, points.getD 0 default]
  else
    (startPoint :: nnLoop d points.length startPoint points) ++
      (if roundtrip then [startPoint] else [])

/-- `optimizedRoute.slice(i, j+1).reverse()` spliced back in place of
indices `i..j`: the 2-opt segment reversal. -/
def reverseSegment (r : List Point) (i j : Nat) : List Point :=
  r.take i ++ ((r.drop i).take (j - i + 1)).reverse ++ r.drop (j + 1)

/-- Inner `for (j = i+1; j < n-1; j++)` loop of `twoOptOptimize`: compares the
cost of edges `(i-1,i)` and `(j,j+1)` against the exchanged edges and reverses
the segment in place when the exchange is strictly cheaper. `fuel` bounds the
remaining iterations (the caller passes enough for the whole loop). -/
def twoOptJ (d : Point → Point → ℚ) (n i : Nat) :
    Nat → Nat → List Point → Bool → List Point × Bool
  | 0, _, r, improved => (r, improved)
  | fuel + 1, j, r, improved =>
    if j < n - 1 then
      let a := r.getD (i - 1) default
      let b := r.getD i default
      let c := r.getD j default
      let e := r.getD (j + 1) default
      let currentCost := d a b + d c e
      let newCost := d a c + d b e
      if newCost < currentCost then
        twoOptJ d n i fuel (j + 1) (reverseSegment r i j) true
      else
        twoOptJ d n i fuel (j + 1) r improved
    else
      (r, improved)

/-- Outer `for (i = 1; i < n-2; i++)` loop of one `twoOptOptimize` pass. -/
def twoOptI (d : Point → Point → ℚ) (n : Nat) :
    Nat → Nat → List Point → Bool → List Point × Bool
  | 0, _, r, improved => (r, improved)
  | fuel + 1, i, r, improved =>
    if i < n - 2 then
      let p := twoOptJ d n i n (i + 1) r improved
      twoOptI d n fuel (i + 1) p.1 p.2
    else
      (r, improved)

/-- `while (improved && iterations < maxIterations)` driver of
`twoOptOptimize`: runs full passes until one makes no exchange or the
iteration cap is reached. -/
def twoOptWhile (d : Point → Point → ℚ) (n : Nat) : Nat → List Point → List Point
  | 0, r => r
  | fuel + 1, r =>
    let p := twoOptI d n n 1 r false
    if p.2 then twoOptWhile d n fuel p.1 else p.1

/-- `twoOptOptimize(route, maxIterations = 100)` from the source: returns the
route unchanged when it has fewer than 4 points, otherwise runs 2-opt passes
on a copy of the route (`[...route]`). -/
def twoOptOptimize (d : Point → Point → ℚ) (route : List Point)
    (maxIterations : Nat := 100) : List Point :=
  if route.length < 4 then route
  else twoOptWhile d route.length maxIterations route

/-- `solveTSP(points, startPoint, roundtrip, optimize = true)`:
nearest-neighbor construction followed by 2-opt when at least 3 points. -/
def solveTSP (d : Point → Point → ℚ) (points : List Point) (startPoint : Point)
    (roundtrip : Bool) (optimize : Bool := true) : List Point × ℚ :=
  let route := nearestNeighbor d points startPoint roundtrip
  let route := if optimize ∧ 3 ≤ points.length then twoOptOptimize d route else route
  (route, calculateRouteDistance d route)

/-! ## Routing strategies (`src/logic/routing-strategies.js`) and the
routing fallback chain of `calculateRoute` (`router.js`)

JS strings are sequences of characters; `includes` is substring search.
The BRouter network call is modelled by an explicit oracle parameter.
-/
/-- `haystack.includes(needle)` on JS strings, via the character lists of
the Lean strings (structural recursion, one prefix test per suffix). -/
def strIncludes (haystack needle : List Char) : Bool :=
  match haystack with
  | [] => needle.isEmpty
  | _ :: rest => needle.isPrefixOf haystack || strIncludes rest needle

/-- A routing error: all the fallback logic inspects is its message. -/
structure RoutingError where
  message : String
deriving DecidableEq, Repr

/-- `isCoverageError(error)` from the source: the message mentions the
German out-of-coverage text or BRouter's `not mapped`. -/
def isCoverageError (error : RoutingError) : Bool :=
  strIncludes error.message.data "nicht verfügbaren Kartenbereichs".data ||
    strIncludes error.message.data "not mapped".data

/-- Result record of `tryProfilesWithFallback`. -/
structure TryResult (G : Type) where
  success : Bool
  geojson : Option G := none
  profile : Option String := none
  attemptNumber : Option Nat := none
  error : Option RoutingError := none
deriving Repr

/-- The loop of `tryProfilesWithFallback(profiles, waypoints, apiUrl)`.
`api p` is the outcome of `callBRouterAPI(waypoints, p, apiUrl)`; `i` is the
0-based loop index and `lastError` the accumulator. On success it returns the
result; on a failure it continues with the next profile only when the error
is a coverage error (`if (!isCoverageError(error)) break`). -/
def tryProfilesGo {G : Type} (api : String → Except RoutingError G) :
    List String → Nat → Option RoutingError → TryResult G
  | [], _, lastError => { success := false, error := lastError }
  | p :: rest, i, _ =>
    match api p with
    | .ok geojson =>
      { success := true, geojson := some geojson, profile := some p,
        attemptNumber := some (i + 1) }
    | .error e =>
      if isCoverageError e then tryProfilesGo api rest (i + 1) (some e)
      else { success := false, error := some e }

/-- `tryProfilesWithFallback` from the source. -/
def tryProfilesWithFallback {G : Type} (api : String → Except RoutingError G)
    (profiles : List String) : TryResult G :=
  tryProfilesGo api profiles 0 none

/-- Ghost observation of `tryProfilesWithFallback`: the profiles for which
`callBRouterAPI` is actually invoked, in order. -/
def tryProfilesAttempts {G : Type} (api : String → Except RoutingError G) :
    List String → List String
  | [] => []
  | p :: rest =>
    match api p with
    | .ok _ => [p]
    | .error e =>
      if isCoverageError e then p :: tryProfilesAttempts api rest
      else [p]

/-- `simplifyWaypoints`'s scan over the intermediate waypoints: keep a
waypoint iff its distance from the last kept one is at least `minDistance`. -/
def simplifyGo (dist : Point → Point → ℚ) (minDistance : ℚ) :
    Point → List Point → List Point
  | _, [] => []
  | lastKept, w :: rest =>
    if minDistance ≤ dist lastKept w then w :: simplifyGo dist minDistance w rest
    else simplifyGo dist minDistance lastKept rest

/-- `simplifyWaypoints(waypoints, minDistance)` from the source: always keeps
the first and last waypoints and drops intermediate waypoints closer than
`minDistance` (km, `turf.distance`) to the last kept one. -/
def simplifyWaypoints (dist : Point → Point → ℚ) (waypoints : List Point)
    (minDistance : ℚ) : List Point :=
  if waypoints.length ≤ 2 then waypoints
  else
    match waypoints with
    | [] => []
    | w₀ :: rest =>
      w₀ :: simplifyGo dist minDistance w₀ rest.dropLast ++
        [waypoints.getLastD w₀]

/-- The sampling loop of `createMinimalWaypoints`:
`for (let i = step; i < waypoints.length - 1; i += step)`. The fuel bounds
the iteration count; callers pass enough for the loop to finish. -/
def minimalSampleLoop (waypoints : List Point) (step : Nat) :
    Nat → Nat → List Point
  | _, 0 => []
  | i, fuel + 1 =>
    if i < waypoints.length - 1 then
      waypoints.getD i default :: minimalSampleLoop waypoints step (i + step) fuel
    else []

/-- `createMinimalWaypoints(waypoints)` from the source: for more than 3
waypoints, keep the start, every `step`-th intermediate waypoint with
`step = ceil((n-2) / min(8, n-2))`, and the end. -/
def createMinimalWaypoints (waypoints : List Point) : List Point :=
  if waypoints.length ≤ 3 then waypoints
  else
    let m := min 8 (waypoints.length - 2)
    let step := (waypoints.length - 2 + m - 1) / m
    waypoints.getD 0 default ::
      minimalSampleLoop waypoints step step waypoints.length ++
      [waypoints.getLastD default]

/-- The route object assembled by `buildRouteResponse` (the fields the
fallback chain sets; the parsed route geometry stays abstract). -/
structure RouteResponse (G : Type) where
  geojson : Option G
  waypoints : List Point
  profileUsed : Option String
  simplified : Bool
  minimal : Bool
deriving Repr

/-- Outcome of the fallback chain of `calculateRoute` (steps 5-9), together
with ghost observations of the attempts made: `levelsTried` records the
simplification level (`-1` = unsimplified original route, `0`/`1`/`2` = the
0.5/1.0/1.5 km thresholds) in force at each `tryProfilesWithFallback` call,
`minimalTried` whether the minimal-waypoint tier was attempted, and
`succeededAt` which tier produced the returned route (1 = profile tier,
2 = simplification retry, 3 = minimal tier). -/
structure OrchOutcome (G : Type) where
  response : Option (RouteResponse G)
  levelsTried : List ℤ
  minimalTried : Bool
  succeededAt : Option Nat
deriving Repr

/-- The `SimplificationStrategy` thresholds (km): 0.5, 1.0, 1.5. -/
def simplificationThresholds : List ℚ := [1/2, 1, 3/2]

/-- `nextLevel()` waypoints of the `SimplificationStrategy` at a level. -/
def simplificationAt (dist : Point → Point → ℚ) (route : List Point)
    (level : ℕ) : List Point :=
  simplifyWaypoints dist route (simplificationThresholds.getD level 0)

/-- The `profileFallbacks` table of `calculateRoute` with the JS lookup
default (`profileFallbacks[bikeType] || []`). -/
def profileFallbacks (bikeType : String) : List String :=
  if bikeType = "trekking" then ["fastbike", "trekking-ignore-cr", "trekking-noferries"]
  else if bikeType = "gravel" then ["trekking", "fastbike"]
  else if bikeType = "fastbike" then ["trekking", "fastbike-lowtraffic"]
  else []

/-- `isCoverageError(result.error)` on the optional stored error (a missing
error object matches nothing). -/
def optIsCoverageError : Option RoutingError → Bool
  | none => false
  | some e => isCoverageError e

/-- Steps 5-9 of `calculateRoute` from `router.js`: the routing-submission
fallback chain run on the final TSP route. `api wps p` is the outcome of
`callBRouterAPI(wps, p, apiUrl)`.

* Step 5: pre-simplify at the first threshold (level 0, `nextLevel()`) when
  the route has more than 20 waypoints; the simplification level starts
  at -1 otherwise.
* Step 7: try all fallback profiles with the current waypoints; a success
  keeps the default flags `simplified = false`, `minimal = false`.
* Step 8: if the stored error is a coverage error and the strategy
  `hasMoreLevels()`, advance exactly one level and retry all profiles; a
  success is flagged `simplified = true`.
* Step 9: with more than 3 waypoints left, retry `createMinimalWaypoints`
  with the primary profile only; a success is flagged `simplified = true`
  and `minimal = true`.
* Otherwise the JS throws (`response = none`). -/
def calculateRouteFallback {G : Type} (dist : Point → Point → ℚ)
    (api : List Point → String → Except RoutingError G)
    (bikeType : String) (route : List Point) : OrchOutcome G :=
  let profilesToTry := bikeType :: profileFallbacks bikeType
  let level₀ : ℤ := if 20 < route.length then 0 else -1
  let finalWaypoints₀ := if 20 < route.length then simplificationAt dist route 0 else route
  let result₁ := tryProfilesWithFallback (api finalWaypoints₀) profilesToTry
  if result₁.success then
    { response := some ⟨result₁.geojson, finalWaypoints₀, result₁.profile, false, false⟩,
      levelsTried := [level₀], minimalTried := false, succeededAt := some 1 }
  else
    -- Step 8: `if (isCoverageError(result.error) && simplification.hasMoreLevels())`
    let tryLevelUp := optIsCoverageError result₁.error ∧ level₀ < 2
    if tryLevelUp then
      let level₁ := level₀ + 1
      let finalWaypoints₁ := simplificationAt dist route level₁.toNat
      let result₂ := tryProfilesWithFallback (api finalWaypoints₁) profilesToTry
      if result₂.success then
        { response := some ⟨result₂.geojson, finalWaypoints₁, result₂.profile, true, false⟩,
          levelsTried := [level₀, level₁], minimalTried := false, succeededAt := some 2 }
      else
        -- Step 9 with the updated waypoints
        if 3 < finalWaypoints₁.length then
          let minimalWaypoints := createMinimalWaypoints finalWaypoints₁
          let result₃ := tryProfilesWithFallback (api minimalWaypoints) [bikeType]
          if result₃.success then
            { response := some ⟨result₃.geojson, minimalWaypoints, result₃.profile, true, true⟩,
              levelsTried := [level₀, level₁], minimalTried := true,
              succeededAt := some 3 }
          else
            { response := none, levelsTried := [level₀, level₁],
              minimalTried := true, succeededAt := none }
        else
          { response := none, levelsTried := [level₀, level₁],
            minimalTried := false, succeededAt := none }
    else
      -- Step 9 with the step-7 waypoints
      if 3 < finalWaypoints₀.length then
        let minimalWaypoints := createMinimalWaypoints finalWaypoints₀
        let result₃ := tryProfilesWithFallback (api minimalWaypoints) [bikeType]
        if result₃.success then
          { response := some ⟨result₃.geojson, minimalWaypoints, result₃.profile, true, true⟩,
            levelsTried := [level₀], minimalTried := true, succeededAt := some 3 }
        else
          { response := none, levelsTried := [level₀], minimalTried := true,
            succeededAt := none }
      else
        { response := none, levelsTried := [level₀], minimalTried := false,
          succeededAt := none }

/-! ## Grid model (`grid.js`, `scanAndBuildVisitedSet`) -/
/-- Grid cell center used by `scanAndBuildVisitedSet`:
`origin + (i + GRID_CELL_CENTER_OFFSET) * step` per axis, with
`GRID_CELL_CENTER_OFFSET = 0.5` from `config.js`. -/
def cellCenterCoord (origin step : ℚ) (i : ℤ) : ℚ :=
  origin + ((i : ℚ) + 1/2) * step

/-- Modelled from the spec: the inverse of the origin/step mapping,
`floor((coordinate - origin) / step)` per axis. The repository sources under
`src/` contain the forward mapping only; the decoding direction is stated in
the spec's testable properties (§8, round-trip). -/
def invCellIndex (origin step : ℚ) (coordinate : ℚ) : ℤ :=
  ⌊(coordinate - origin) / step⌋

/-! ## Waypoint optimizer (`src/logic/waypoint-optimizer.js`)

The Turf.js geometry (road/cell intersection tests, clipping, intersection
points, midpoints, nearest points, centers) is kept abstract: `roadsIn sq`
stands for `findRoadsInSquare(roads, sq)`, `bestWp rs sq` for
`findBestWaypointOnRoads(rs, sq)` and `center sq` for
`getSquareCenter(sq)`. The loop structure, flags and bookkeeping of
`optimizeWaypoints` are embedded exactly. -/
/-- Core of a waypoint produced by `findBestWaypointOnRoads`: a point plus
the candidate-strategy type tag. -/
structure WpCore where
  pt : Point
  type : String
deriving Repr, DecidableEq

/-- A waypoint entry pushed into `results.waypoints`. -/
structure Waypoint where
  pt : Point
  type : String
  squareIndex : Nat
  hasRoad : Bool
deriving Repr, DecidableEq

/-- The statistics record of `optimizeWaypoints`. -/
structure WpStats where
  total : Nat
  withRoads : Nat
  withoutRoads : Nat
  intersections : Nat
  midpoints : Nat
  nearest : Nat
deriving Repr, DecidableEq

/-- Accumulated `results` of `optimizeWaypoints`. -/
structure WpResults where
  waypoints : List Waypoint
  skippedSquares : List Nat
  statistics : WpStats
deriving Repr, DecidableEq

/-- The per-square body of the `optimizeWaypoints` loop at index `i`:
with roads present and a best waypoint found, push it with `hasRoad = true`
and bump the type statistics; otherwise push the square center with
`hasRoad = false` (type `center-fallback` or `no-road`) and record the
square index in `skippedSquares`. -/
def optimizeWaypointsStep {Sq Rd : Type} (roadsIn : Sq → List Rd)
    (bestWp : List Rd → Sq → Option WpCore) (center : Sq → Point)
    (i : Nat) (square : Sq) (acc : WpResults) : WpResults :=
  let roadsInSquare := roadsIn square
  if roadsInSquare.length > 0 then
    match bestWp roadsInSquare square with
    | some waypoint =>
      { acc with
        waypoints := acc.waypoints ++
          [⟨waypoint.pt, waypoint.type, i, true⟩],
        statistics := { acc.statistics with
          withRoads := acc.statistics.withRoads + 1,
          intersections := acc.statistics.intersections +
            (if waypoint.type = "intersection" then 1 else 0),
          midpoints := acc.statistics.midpoints +
            (if waypoint.type ≠ "intersection" ∧ waypoint.type = "midpoint" then 1 else 0),
          nearest := acc.statistics.nearest +
            (if waypoint.type ≠ "intersection" ∧ waypoint.type ≠ "midpoint" then 1 else 0) } }
    | none =>
      { acc with
        waypoints := acc.waypoints ++
          [⟨center square, "center-fallback", i, false⟩],
        skippedSquares := acc.skippedSquares ++ [i],
        statistics := { acc.statistics with
          withoutRoads := acc.statistics.withoutRoads + 1 } }
  else
    { acc with
      waypoints := acc.waypoints ++
        [⟨center square, "no-road", i, false⟩],
      skippedSquares := acc.skippedSquares ++ [i],
      statistics := { acc.statistics with
        withoutRoads := acc.statistics.withoutRoads + 1 } }

/-- The `for (let i = 0; ...)` loop of `optimizeWaypoints`. -/
def optimizeWaypointsGo {Sq Rd : Type} (roadsIn : Sq → List Rd)
    (bestWp : List Rd → Sq → Option WpCore) (center : Sq → Point) :
    Nat → List Sq → WpResults → WpResults
  | _, [], acc => acc
  | i, square :: rest, acc =>
    optimizeWaypointsGo roadsIn bestWp center (i + 1) rest
      (optimizeWaypointsStep roadsIn bestWp center i square acc)

/-- `optimizeWaypoints(squares, roads)` from the source. -/
def optimizeWaypoints {Sq Rd : Type} (roadsIn : Sq → List Rd)
    (bestWp : List Rd → Sq → Option WpCore) (center : Sq → Point)
    (squares : List Sq) : WpResults :=
  optimizeWaypointsGo roadsIn bestWp center 0 squares
    ⟨[], [], ⟨squares.length, 0, 0, 0, 0, 0⟩⟩

/-! ## Square optimizer (`src/logic/optimizer.js`)

Grid cells are identified by integer index pairs; the JS `Set`/`Map` keys
`"i,j"` are modelled by the pairs themselves (the string encoding of an
integer pair is injective) and the JS sets by lists with membership tests. -/
/-- A cell key `(i, j)`. -/
abbrev CellKey := ℤ × ℤ

/-- `base` / search-bounds rectangle of cell indices. -/
structure GridBounds where
  minI : ℤ
  maxI : ℤ
  minJ : ℤ
  maxJ : ℤ
deriving Repr, DecidableEq

/-- Integer range `[lo, hi]` as a list (empty when `hi < lo`). -/
def intRange (lo hi : ℤ) : List ℤ :=
  (List.range (hi + 1 - lo).toNat).map (fun (n : ℕ) => lo + (n : ℤ))

/-- `getSearchBounds(radius)` from the source. -/
def getSearchBounds (base : GridBounds) (radius : ℤ) : GridBounds :=
  ⟨base.minI - radius, base.maxI + radius, base.minJ - radius, base.maxJ + radius⟩

/-- `isInSearchBounds(i, j)` from the source. -/
def inBounds (b : GridBounds) (k : CellKey) : Bool :=
  decide (b.minI ≤ k.1 ∧ k.1 ≤ b.maxI ∧ b.minJ ≤ k.2 ∧ k.2 ≤ b.maxJ)

/-- All cells of a bounds rectangle in the source's scan order
(`for i ... for j ...`). -/
def cellsInBounds (b : GridBounds) : List CellKey :=
  (intRange b.minI b.maxI).flatMap fun i => (intRange b.minJ b.maxJ).map fun j => (i, j)

/-- `getNeighborKeys(i, j)` from the source (4-neighborhood, in order). -/
def getNeighborKeys (k : CellKey) : List CellKey :=
  [(k.1 - 1, k.2), (k.1 + 1, k.2), (k.1, k.2 - 1), (k.1, k.2 + 1)]

/-- `calculateLayerDistance(i, j).total` from the source. -/
def calculateLayerDistance (base : GridBounds) (k : CellKey) : ℤ :=
  let distI := max 0 (max (base.minI - k.1 - 1) (k.1 - base.maxI - 1))
  let distJ := max 0 (max (base.minJ - k.2 - 1) (k.2 - base.maxJ - 1))
  distI + distJ

/-- `manhattanDistance(p1, p2)` from the source. -/
def manhattanDistance (p q : CellKey) : ℤ :=
  |p.1 - q.1| + |p.2 - q.2|

/-- `isOnUbersquadratBorder(i, j)` from the source. -/
def isOnUbersquadratBorder (base : GridBounds) (k : CellKey) : Bool :=
  decide ((k.1 = base.maxI + 1 ∧ base.minJ - 1 ≤ k.2 ∧ k.2 ≤ base.maxJ + 1) ∨
    (k.1 = base.minI - 1 ∧ base.minJ - 1 ≤ k.2 ∧ k.2 ≤ base.maxJ + 1) ∨
    (k.2 = base.maxJ + 1 ∧ base.minI - 1 ≤ k.1 ∧ k.1 ≤ base.maxI + 1) ∨
    (k.2 = base.minJ - 1 ∧ base.minI - 1 ≤ k.1 ∧ k.1 ≤ base.maxI + 1))

/-- The four cardinal directions. -/
inductive Dir | N | S | E | W
deriving Repr, DecidableEq

/-- Result of `analyzeEdge` (the fields the rest of the algorithm reads). -/
structure EdgeInfo where
  total : ℤ
  unvisitedCount : ℕ
  completion : ℚ
  canExpand : Bool
deriving Repr, DecidableEq

/-- `analyzeEdge(name, fixedCoord, start, end, type)` from the source:
visited fraction of one border row/column, as a percentage. -/
def analyzeEdge (visitedSet : List CellKey) (fixedCoord start stop : ℤ)
    (isRow : Bool) : EdgeInfo :=
  let cells := (intRange start stop).map fun k =>
    if isRow then ((fixedCoord, k) : CellKey) else ((k, fixedCoord) : CellKey)
  let unvisitedCount := (cells.filter fun k => k ∉ visitedSet).length
  let total := stop - start + 1
  let visitedCount := (total : ℚ) - unvisitedCount
  { total := total, unvisitedCount := unvisitedCount,
    completion := visitedCount / total * 100,
    canExpand := unvisitedCount = 0 }

/-- The `edges` table (`N`/`S`/`E`/`W`) of the optimizer. -/
def edgesOf (base : GridBounds) (visitedSet : List CellKey) : Dir → EdgeInfo
  | Dir.N => analyzeEdge visitedSet (base.maxI + 1) base.minJ base.maxJ true
  | Dir.S => analyzeEdge visitedSet (base.minI - 1) base.minJ base.maxJ true
  | Dir.E => analyzeEdge visitedSet (base.maxJ + 1) base.minI base.maxI false
  | Dir.W => analyzeEdge visitedSet (base.minJ - 1) base.minI base.maxI false

/-- The breadth-first flood fill `findContiguousRegion(startI, startJ,
visited, isInBounds)` from the source. `processed` is the caller's shared
`visited` set, `regionVisited` the local enqueue guard. Each queue pop either
skips (already processed / in the visited set / out of bounds) or adds the
cell to the region, marks it processed and enqueues its unseen in-bounds
unvisited 4-neighbors. The fuel bounds the pops; since every enqueue is
guarded by `regionVisited`, `|cells in bounds| + 1` pops always suffice. -/
def floodFill (visitedSet : List CellKey) (inB : CellKey → Bool) :
    Nat → List CellKey → List CellKey → List CellKey → List CellKey × List CellKey
  | 0, _, processed, _ => ([], processed)
  | _ + 1, [], processed, _ => ([], processed)
  | fuel + 1, k :: queue, processed, regionVisited =>
    if k ∈ processed ∨ k ∈ visitedSet then
      floodFill visitedSet inB fuel queue processed regionVisited
    else if ¬ inB k then
      floodFill visitedSet inB fuel queue processed regionVisited
    else
      let enq := (getNeighborKeys k).filter fun n =>
        n ∉ regionVisited ∧ n ∉ visitedSet ∧ inB n
      let p := floodFill visitedSet inB fuel (queue ++ enq) (k :: processed)
        (enq ++ regionVisited)
      (k :: p.1, p.2)

/-- A detected hole: contiguous unvisited region with its bookkeeping. -/
structure Hole where
  id : Nat
  cells : List CellKey
  size : Nat
  avgLayer : ℚ
deriving Repr, DecidableEq

/-- The hole-detection scan of the optimizer: for each cell of the search
area (in scan order), if it is neither processed nor visited, flood-fill its
contiguous region and record it as a hole when nonempty. -/
def detectHolesLoop (base : GridBounds) (visitedSet : List CellKey)
    (inB : CellKey → Bool) (fuel : Nat) :
    List CellKey → List Hole → List CellKey → List Hole × List CellKey
  | [], holes, processed => (holes, processed)
  | k :: rest, holes, processed =>
    if k ∈ processed ∨ k ∈ visitedSet then
      detectHolesLoop base visitedSet inB fuel rest holes processed
    else
      let p := floodFill visitedSet inB fuel [k] processed [k]
      if p.1.length > 0 then
        let totalLayerDist := (p.1.map fun c => ((calculateLayerDistance base c : ℚ))).sum
        let hole : Hole := ⟨holes.length, p.1, p.1.length, totalLayerDist / p.1.length⟩
        detectHolesLoop base visitedSet inB fuel rest (holes ++ [hole]) p.2
      else
        detectHolesLoop base visitedSet inB fuel rest holes p.2

/-- Hole detection over the 5-layer search bounds (`holes` and the final
`processedSquares` set of the source). -/
def detectHoles (base : GridBounds) (visitedSet : List CellKey) :
    List Hole × List CellKey :=
  let searchBounds := getSearchBounds base 5
  let cells := cellsInBounds searchBounds
  detectHolesLoop base visitedSet (inBounds searchBounds) (cells.length + 1)
    cells [] []

/-- `validHoles`: holes kept for bonus consideration (`size <= maxHoleSize`). -/
def validHoles (base : GridBounds) (visitedSet : List CellKey)
    (maxHoleSize : Nat) : List Hole :=
  (detectHoles base visitedSet).1.filter fun h => h.size ≤ maxHoleSize

/-- `squareToHoleMap` lookup rebuilt from the valid holes: the hole (if any)
containing a cell key. -/
def squareToHole (base : GridBounds) (visitedSet : List CellKey)
    (maxHoleSize : Nat) (k : CellKey) : Option Hole :=
  (validHoles base visitedSet maxHoleSize).find? fun h => k ∈ h.cells

/-- An unscored candidate from `findPerimeterSquares`. -/
structure Candidate where
  i : ℤ
  j : ℤ
  edge : List Dir
deriving Repr, DecidableEq

/-- Key of a candidate. -/
def Candidate.key (c : Candidate) : CellKey := (c.i, c.j)

/-- `findPerimeterSquares()` from the source: every non-visited cell of the
5-layer search bounds, tagged with the cardinal directions of its position
relative to the base square, kept when its (min-based) layer distance is at
most 5. -/
def findPerimeterSquares (base : GridBounds) (visitedSet : List CellKey) :
    List Candidate :=
  let bounds := getSearchBounds base 5
  (cellsInBounds bounds).filterMap fun k =>
    if k ∈ visitedSet then none
    else
      let layerDistance :=
        min (min (max 0 (k.1 - base.maxI - 1)) (max 0 (base.minI - k.1 - 1)))
          (min (max 0 (k.2 - base.maxJ - 1)) (max 0 (base.minJ - k.2 - 1)))
      if layerDistance > 5 then none
      else
        let edge := [Dir.N, Dir.S, Dir.E, Dir.W].filter fun dir =>
          match dir with
          | Dir.N => base.maxI < k.1
          | Dir.S => k.1 < base.minI
          | Dir.E => base.maxJ < k.2
          | Dir.W => k.2 < base.minJ
        some ⟨k.1, k.2, edge⟩

/-- Mode multipliers (`MODE_MULTIPLIERS[optimizationMode] || balanced`). -/
def modeMultipliers (optimizationMode : String) : ℚ × ℚ :=
  if optimizationMode = "edge" then (3, 3/10)
  else if optimizationMode = "holes" then (3/10, 2)
  else (1, 1)

/-- A scored candidate (`routeScore` is set during greedy selection). -/
structure Scored where
  i : ℤ
  j : ℤ
  edge : List Dir
  score : ℚ
  layerDistance : ℤ
  routeScore : ℚ
deriving Repr, DecidableEq

instance : Inhabited Scored := ⟨⟨0, 0, [], 0, 0, 0⟩⟩

/-- Key of a scored candidate. -/
def Scored.key (s : Scored) : CellKey := (s.i, s.j)

/-- Whether a cell matches any of the selected directions (the `matches`
table and `matchesAnyDirection` of the direction filter). -/
def matchesAnyDirection (base : GridBounds) (dirs : List Dir) (k : CellKey) : Bool :=
  dirs.any fun dir =>
    match dir with
    | Dir.N => decide (base.maxI < k.1)
    | Dir.S => decide (k.1 < base.minI)
    | Dir.E => decide (base.maxJ < k.2)
    | Dir.W => decide (k.2 < base.minJ)

/-- The strategic scoring of one candidate (Phase 4 of the source): base 100,
layer-distance tiers, hole-completion bonus, mode-scaled edge-completion and
hole-size bonuses, adjacency bonus, and the direction-filter penalty. -/
def scoreCandidate (base : GridBounds) (visitedSet : List CellKey)
    (direction : Option (List Dir)) (optimizationMode : String)
    (maxHoleSize : Nat) (square : Candidate) : Scored :=
  let score₀ : ℚ := 100
  let isBorder := isOnUbersquadratBorder base square.key
  let layerDistance : ℤ :=
    if isBorder then 0 else calculateLayerDistance base square.key
  let score₁ : ℚ := score₀ +
    (if layerDistance = 0 then 10000
     else if layerDistance = 1 then 5000
     else if layerDistance = 2 then 2000
     else if layerDistance = 3 then 500
     else if layerDistance = 4 then -2000
     else -10000)
  let maxEdgeCompletion : ℚ :=
    (([Dir.N, Dir.S, Dir.E, Dir.W].filter fun dir => dir ∈ square.edge).map
      fun dir => (edgesOf base visitedSet dir).completion).foldl max 0
  let edgeBonus₀ : ℤ := ⌊maxEdgeCompletion * 5⌋
  let hole? := squareToHole base visitedSet maxHoleSize square.key
  let holeSizeBonus₀ : ℚ :=
    match hole? with
    | some hole =>
      let holeMultiplier : ℚ :=
        if 5 ≤ layerDistance then 200 else if 3 ≤ layerDistance then 400 else 800
      hole.size * holeMultiplier
    | none => 0
  let score₂ : ℚ :=
    match hole? with
    | some hole =>
      let unvisitedInHole := (hole.cells.filter fun c =>
        c ∉ visitedSet ∧ c ≠ square.key).length
      if unvisitedInHole = 0 then score₁ + 1500 else score₁
    | none => score₁
  let mult := modeMultipliers optimizationMode
  let edgeBonus : ℤ := ⌊(edgeBonus₀ : ℚ) * mult.1⌋
  let holeSizeBonus : ℤ := ⌊holeSizeBonus₀ * mult.2⌋
  let score₃ : ℚ := score₂ + edgeBonus + holeSizeBonus
  let adjacency := ((getNeighborKeys square.key).filter fun n => n ∈ visitedSet).length
  let score₄ : ℚ := score₃ + adjacency * 25
  let score₅ : ℚ :=
    match direction with
    | some dirs =>
      if dirs.length < 4 then
        if matchesAnyDirection base dirs square.key then score₄
        else score₄ - 1000000
      else score₄
    | none => score₄
  ⟨square.i, square.j, square.edge, score₅, layerDistance, 0⟩

/-- Stable insertion of `x` into a list sorted descending by `key` (`x` goes
before the first strictly smaller element, after equal ones): extensionally
the stable `Array.sort` with a numeric comparator used by the source. -/
def insertDesc (key : Scored → ℚ) (x : Scored) : List Scored → List Scored
  | [] => [x]
  | y :: t => if key y < key x then x :: y :: t else y :: insertDesc key x t

/-- Stable descending sort by `key`. -/
def sortDesc (key : Scored → ℚ) : List Scored → List Scored
  | [] => []
  | x :: t => insertDesc key x (sortDesc key t)

/-- One round of `routeScore` updates of the greedy selection loop:
`score - 100 * manhattanDistance(to last picked)`, plus `1500` when the
candidate continues a hole already touched by a selected cell. -/
def withRouteScores (holeId : CellKey → Option Nat) (selected : List Scored)
    (last : Scored) (remaining : List Scored) : List Scored :=
  remaining.map fun sq =>
    let dist := manhattanDistance sq.key last.key
    let rs : ℚ := sq.score - dist * 100
    let rs :=
      match holeId sq.key with
      | some hid =>
        if selected.any (fun s => holeId s.key = some hid) then rs + 1500 else rs
      | none => rs
    { sq with routeScore := rs }

/-- The greedy selection loop (`while (selected.length < targetNew &&
remaining.length > 0)`); `need` is `targetNew - selected.length`. -/
def greedyLoop (holeId : CellKey → Option Nat) :
    Nat → List Scored → List Scored → List Scored
  | 0, selected, _ => selected
  | _ + 1, selected, [] => selected
  | need + 1, selected, r :: rest =>
    let last := selected.getLastD default
    match sortDesc (·.routeScore) (withRouteScores holeId selected last (r :: rest)) with
    | [] => selected
    | top :: rest' => greedyLoop holeId need (selected ++ [top]) rest'

/-- `unvisited`: the perimeter candidates filtered against the visited set
(Phase 3 of the source). -/
def unvisitedCandidates (base : GridBounds) (visitedSet : List CellKey) :
    List Candidate :=
  (findPerimeterSquares base visitedSet).filter fun c => c.key ∉ visitedSet

/-- `scored`: the strategic scores of all unvisited candidates (Phase 4). -/
def scoredList (base : GridBounds) (visitedSet : List CellKey)
    (direction : Option (List Dir)) (optimizationMode : String)
    (maxHoleSize : Nat) : List Scored :=
  (unvisitedCandidates base visitedSet).map
    (scoreCandidate base visitedSet direction optimizationMode maxHoleSize)

/-- The ordered list of cells selected by `optimizeSquare` (the source's
`selected`, before it is mapped to rectangles). -/
def optimizeSquareSelected (base : GridBounds) (targetNew : Nat)
    (direction : Option (List Dir)) (visitedSet : List CellKey)
    (optimizationMode : String) (maxHoleSize : Nat) : List Scored :=
  let scored := scoredList base visitedSet direction optimizationMode maxHoleSize
  let holeId := fun k => (squareToHole base visitedSet maxHoleSize k).map (·.id)
  match sortDesc (·.score) scored with
  | [] => []
  | first :: rest => greedyLoop holeId (targetNew - 1) [first] rest

/-- `rectFromIJ(i, j)` from the source. -/
def rectFromIJ (latStep lonStep originLat originLon : ℚ) (i j : ℤ) :
    (ℚ × ℚ) × (ℚ × ℚ) :=
  let s := originLat + i * latStep
  let w := originLon + j * lonStep
  ((s, w), (s + latStep, w + lonStep))

/-- `optimizeSquare(...)`: the selected cells as rectangles. -/
def optimizeSquare (base : GridBounds) (targetNew : Nat)
    (direction : Option (List Dir)) (visitedSet : List CellKey)
    (latStep lonStep originLat originLon : ℚ)
    (optimizationMode : String) (maxHoleSize : Nat) :
    List ((ℚ × ℚ) × (ℚ × ℚ)) :=
  (optimizeSquareSelected base targetNew direction visitedSet
      optimizationMode maxHoleSize).map
    fun s => rectFromIJ latStep lonStep originLat originLon s.i s.j

/-- A concrete symmetric distance used for evaluating theorems on concrete
inputs (taxicab distance on coordinates). -/
def taxicab (p q : Point) : ℚ :=
  |p.lat - q.lat| + |p.lon - q.lon|

/-- Four concrete points used as witness inputs. -/
def witnessPoints : List Point :=
  [⟨0, 0⟩, ⟨0, 3⟩, ⟨2, 0⟩, ⟨2, 3⟩]

/-- A concrete coverage error: the message BRouter failures carry when a
waypoint is outside the data area (`isCoverageError` matches `not mapped`). -/
def coverageErr : RoutingError :=
  ⟨"BRouter API error: 502 - position not mapped in existing datafile"⟩

/-- A concrete generic (non-coverage) routing failure. -/
def genericErr : RoutingError :=
  ⟨"BRouter API error: 500 Internal Server Error"⟩

/-- Claim C1 as stated: in `tryProfilesWithFallback`, the next profile is
attempted after a failure if and only if that failure is a generic
(non-coverage) routing failure. -/
def ProfilesRetryOnGenericOnly : Prop :=
  ∀ (api : String → Except RoutingError Unit) (profiles : List String) (k : Nat),
    k < (tryProfilesAttempts api profiles).length →
    (k + 1 < (tryProfilesAttempts api profiles).length ↔
      (k + 1 < profiles.length ∧
        ∃ e, api (profiles.getD k "") = .error e ∧ isCoverageError e = false))

/-- An API oracle whose first profile fails with a coverage error and whose
second succeeds. -/
def covThenOkApi : String → Except RoutingError Unit :=
  fun p => if p = "a" then .error coverageErr else .ok ()

/-- An API oracle that fails every call with a coverage error. -/
def allCoverageApi : List Point → String → Except RoutingError Unit :=
  fun _ _ => .error coverageErr

/-- A concrete 5-waypoint route used to instantiate the orchestrator. -/
def witnessRoute : List Point :=
  [⟨0, 0⟩, ⟨10, 0⟩, ⟨20, 0⟩, ⟨30, 0⟩, ⟨40, 0⟩]

/-- Claim C2 as stated: when the routing service returns a coverage error on
every attempt, the orchestrator tries all three simplification thresholds
(levels 0, 1 and 2, i.e. 0.5/1.0/1.5 km) before falling back to the
minimal-skeleton tier. -/
def TriesAllSimplificationLevels : Prop :=
  ∀ (dist : Point → Point → ℚ)
    (api : List Point → String → Except RoutingError Unit)
    (bikeType : String) (route : List Point),
    (∀ wps p, ∃ e, api wps p = .error e ∧ isCoverageError e = true) →
    (0 ∈ (calculateRouteFallback dist api bikeType route).levelsTried ∧
      1 ∈ (calculateRouteFallback dist api bikeType route).levelsTried ∧
      2 ∈ (calculateRouteFallback dist api bikeType route).levelsTried ∧
      (calculateRouteFallback dist api bikeType route).minimalTried = true)

/-- The disjointness relation between holes: no shared cell. -/
def holesDisjoint (h₁ h₂ : Hole) : Prop :=
  ∀ k, k ∈ h₁.cells → k ∉ h₂.cells

/-- Concrete optimizer instance: a 1×1 base square with every search-bounds
cell visited except the base cell `(0,0)` and its north neighbor `(1,0)`. -/
def c5visited : List CellKey :=
  (cellsInBounds (getSearchBounds ⟨0, 0, 0, 0⟩ 5)).filter fun k =>
    k ≠ ((0 : ℤ), (0 : ℤ)) ∧ k ≠ ((1 : ℤ), (0 : ℤ))

/-- The cells that instance selects (`targetNew = 2`, direction filter `[N]`). -/
def c5selected : List Scored :=
  optimizeSquareSelected ⟨0, 0, 0, 0⟩ 2 (some [Dir.N]) c5visited "balanced" 5

/-! ## Lemmas about path length -/
lemma pathD_append_cons (d : Point → Point → ℚ) (x y : Point) (l m : List Point) :
    pathD d x (l ++ y :: m) = pathD d x (l ++ [y]) + pathD d y m := by
  induction l generalizing x with
  | nil => simp [pathD]
  | cons z t ih => simp [pathD, ih z, add_assoc]

lemma pathD_concat (d : Point → Point → ℚ) (x y : Point) (l : List Point) :
    pathD d x (l ++ [y]) = pathD d x l + d (l.getLastD x) y := by
  induction l generalizing x with
  | nil => simp [pathD]
  | cons z t ih =>
    have hlast : (z :: t).getLastD x = t.getLastD z := by
      cases t <;> simp [List.getLastD]
    rw [List.cons_append]
    simp only [pathD, ih z, hlast, add_assoc]

lemma pathD_reverse (d : Point → Point → ℚ) (hsym : ∀ p q, d p q = d q p)
    (x y : Point) (l : List Point) :
    pathD d x (l ++ [y]) = pathD d y (l.reverse ++ [x]) := by
  induction l generalizing x with
  | nil => simp [pathD, hsym x y]
  | cons z t ih =>
    have h1 : pathD d x (z :: t ++ [y]) = d x z + pathD d z (t ++ [y]) := by
      simp [pathD]
    have h2 : (z :: t).reverse ++ [x] = t.reverse ++ z :: [x] := by simp
    rw [h1, ih z, h2, pathD_append_cons d y z t.reverse [x]]
    simp [pathD, hsym x z, add_comm]

lemma calculateRouteDistance_append_cons (d : Point → Point → ℚ) (x : Point)
    (pre X : List Point) :
    calculateRouteDistance d (pre ++ x :: X) =
      calculateRouteDistance d (pre ++ [x]) + pathD d x X := by
  cases pre with
  | nil => simp [calculateRouteDistance, pathD]
  | cons p t =>
    simp only [calculateRouteDistance, List.cons_append]
    rw [pathD_append_cons d p x t X]

/-- Core 2-opt exchange inequality: reversing the inner segment strictly
decreases total length when the exchanged edge pair is strictly cheaper. -/
lemma twoOpt_exchange_le (d : Point → Point → ℚ) (hsym : ∀ p q, d p q = d q p)
    (pre mid post : List Point) (a b c e : Point)
    (hguard : d a c + d b e < d a b + d c e) :
    calculateRouteDistance d (pre ++ a :: ((c :: mid.reverse ++ [b]) ++ e :: post)) ≤
      calculateRouteDistance d (pre ++ a :: ((b :: mid ++ [c]) ++ e :: post)) := by
  rw [calculateRouteDistance_append_cons d a pre ((c :: mid.reverse ++ [b]) ++ e :: post),
    calculateRouteDistance_append_cons d a pre ((b :: mid ++ [c]) ++ e :: post)]
  have hL : pathD d a ((c :: mid.reverse ++ [b]) ++ e :: post) =
      d a c + (pathD d b (mid ++ [c]) + (d b e + pathD d e post)) := by
    rw [pathD_append_cons d a e (c :: mid.reverse ++ [b]) post]
    have h1 : pathD d a (c :: mid.reverse ++ [b] ++ [e]) =
        d a c + pathD d c (mid.reverse ++ [b] ++ [e]) := by
      simp [pathD]
    have h2 : mid.reverse ++ [b] ++ [e] = mid.reverse ++ b :: [e] := by simp
    have h3 : pathD d c (mid.reverse ++ b :: [e]) =
        pathD d c (mid.reverse ++ [b]) + pathD d b [e] := by
      exact pathD_append_cons d c b mid.reverse [e]
    have h4 : pathD d c (mid.reverse ++ [b]) = pathD d b (mid ++ [c]) := by
      rw [pathD_reverse d hsym b c mid]
    simp only [List.cons_append] at h1 ⊢
    rw [h1, h2, h3, h4]
    simp [pathD, add_assoc]
  have hR : pathD d a ((b :: mid ++ [c]) ++ e :: post) =
      d a b + (pathD d b (mid ++ [c]) + (d c e + pathD d e post)) := by
    rw [pathD_append_cons d a e (b :: mid ++ [c]) post]
    have h1 : pathD d a (b :: mid ++ [c] ++ [e]) =
        d a b + pathD d b (mid ++ [c] ++ [e]) := by
      simp [pathD]
    have h2 : mid ++ [c] ++ [e] = (mid ++ [c]) ++ [e] := by simp
    have h3 : pathD d b ((mid ++ [c]) ++ [e]) =
        pathD d b (mid ++ [c]) + d ((mid ++ [c]).getLastD b) e :=
      pathD_concat d b e (mid ++ [c])
    simp only [List.cons_append] at h1 ⊢
    rw [h1, h2, h3]
    simp [pathD, add_assoc]
  rw [hL, hR]
  linarith

lemma head?_append_cons {α : Type} (xs : List α) (y : α) (ys zs : List α) :
    (xs ++ y :: ys).head? = (xs ++ y :: zs).head? := by
  cases xs <;> simp

lemma getLast?_append_cons {α : Type} (xs : List α) (y : α) (ys : List α) :
    (xs ++ y :: ys).getLast? = (y :: ys).getLast? :=
  List.getLast?_append_of_ne_nil xs (by simp)

/-- With `1 ≤ i < j` and `j + 1 < r.length`, the route splits around the
reversed segment: `r = pre ++ a :: (b :: mid ++ [c]) ++ e :: post` and
`reverseSegment r i j` replaces the inner block by its reversal. -/
lemma reverseSegment_decomp (r : List Point) (i j : Nat)
    (h1 : 1 ≤ i) (h2 : i < j) (h3 : j + 1 < r.length) :
    r = r.take (i - 1) ++ r.getD (i - 1) default ::
        ((r.getD i default :: (r.drop (i + 1)).take (j - i - 1) ++ [r.getD j default]) ++
          r.getD (j + 1) default :: r.drop (j + 2)) ∧
    reverseSegment r i j = r.take (i - 1) ++ r.getD (i - 1) default ::
        ((r.getD j default :: ((r.drop (i + 1)).take (j - i - 1)).reverse ++
            [r.getD i default]) ++
          r.getD (j + 1) default :: r.drop (j + 2)) := by
  have hi1 : i - 1 < r.length := by omega
  have hi : i < r.length := by omega
  have hj : j < r.length := by omega
  have hj1 : j + 1 < r.length := h3
  have ha : r.getD (i - 1) default = r[i - 1] := by
    simp [List.getD_eq_getElem?_getD, List.getElem?_eq_getElem hi1]
  have hb : r.getD i default = r[i] := by
    simp [List.getD_eq_getElem?_getD, List.getElem?_eq_getElem hi]
  have hc : r.getD j default = r[j] := by
    simp [List.getD_eq_getElem?_getD, List.getElem?_eq_getElem hj]
  have he : r.getD (j + 1) default = r[j + 1] := by
    simp [List.getD_eq_getElem?_getD, List.getElem?_eq_getElem hj1]
  have hdi1 : r.drop (i - 1) = r[i - 1] :: r.drop i := by
    have e1 : i - 1 + 1 = i := by omega
    rw [List.drop_eq_getElem_cons hi1, e1]
  have hdi : r.drop i = r[i] :: r.drop (i + 1) := List.drop_eq_getElem_cons hi
  have hdj : r.drop j = r[j] :: r.drop (j + 1) := List.drop_eq_getElem_cons hj
  have hdj1 : r.drop (j + 1) = r[j + 1] :: r.drop (j + 2) := List.drop_eq_getElem_cons hj1
  have hmidlen : ((r.drop (i + 1)).take (j - i - 1)).length = j - i - 1 := by
    rw [List.length_take, List.length_drop]
    omega
  have hdrop_split : r.drop (i + 1) =
      (r.drop (i + 1)).take (j - i - 1) ++ (r[j] :: r.drop (j + 1)) := by
    conv_lhs => rw [← List.take_append_drop (j - i - 1) (r.drop (i + 1))]
    congr 1
    rw [List.drop_drop, show i + 1 + (j - i - 1) = j by omega, hdj]
  have hsplit : r = r.take (i - 1) ++ r[i - 1] ::
      ((r[i] :: (r.drop (i + 1)).take (j - i - 1) ++ [r[j]]) ++
        r[j + 1] :: r.drop (j + 2)) := by
    conv_lhs => rw [← List.take_append_drop (i - 1) r, hdi1, hdi, hdrop_split, hdj1]
    simp
  have htake : r.take i = r.take (i - 1) ++ [r[i - 1]] := by
    have e1 : i = (i - 1) + 1 := by omega
    conv_lhs => rw [e1]
    rw [List.take_succ, List.getElem?_eq_getElem hi1]
    simp
  have hseg : (r.drop i).take (j - i + 1) =
      r[i] :: ((r.drop (i + 1)).take (j - i - 1) ++ [r[j]]) := by
    rw [hdi, List.take_succ_cons]
    congr 1
    conv_lhs => rw [hdrop_split]
    rw [List.take_append_eq_append_take, hmidlen,
      List.take_of_length_le (by rw [hmidlen]; omega),
      show j - i - (j - i - 1) = 1 by omega]
    simp only [List.append_cancel_left_eq]
    rfl
  refine ⟨by rw [ha, hb, hc, he]; exact hsplit, ?_⟩
  rw [reverseSegment, htake, hseg, hdj1, ha, hb, hc, he]
  simp only [List.reverse_cons, List.reverse_append, List.reverse_nil, List.nil_append,
    List.singleton_append, List.append_assoc, List.cons_append]

/-- One guarded reversal step of the inner 2-opt loop: the transformed route
keeps the length, is no longer, is a permutation, and keeps first/last. -/
lemma reverseSegment_step (d : Point → Point → ℚ) (hsym : ∀ p q, d p q = d q p)
    (r : List Point) (i j : Nat) (h1 : 1 ≤ i) (h2 : i < j) (h3 : j + 1 < r.length)
    (hguard : d (r.getD (i - 1) default) (r.getD j default) +
        d (r.getD i default) (r.getD (j + 1) default) <
      d (r.getD (i - 1) default) (r.getD i default) +
        d (r.getD j default) (r.getD (j + 1) default)) :
    (reverseSegment r i j).length = r.length ∧
    calculateRouteDistance d (reverseSegment r i j) ≤ calculateRouteDistance d r ∧
    r.Perm (reverseSegment r i j) ∧
    (reverseSegment r i j).head? = r.head? ∧
    (reverseSegment r i j).getLast? = r.getLast? := by
  obtain ⟨hr, hrs⟩ := reverseSegment_decomp r i j h1 h2 h3
  set pre := r.take (i - 1) with hpre
  set mid := (r.drop (i + 1)).take (j - i - 1) with hmid
  set post := r.drop (j + 2) with hpost
  set a := r.getD (i - 1) default
  set b := r.getD i default
  set c := r.getD j default
  set e := r.getD (j + 1) default
  have hperm : (b :: mid ++ [c]).Perm (c :: mid.reverse ++ [b]) := by
    have h := (List.reverse_perm (b :: mid ++ [c])).symm
    simpa using h
  refine ⟨?_, ?_, ?_, ?_, ?_⟩
  · rw [hrs]
    conv_rhs => rw [hr]
    simp
  · rw [hrs]
    conv_rhs => rw [hr]
    exact twoOpt_exchange_le d hsym pre mid post a b c e hguard
  · conv_lhs => rw [hr]
    rw [hrs]
    exact List.Perm.append_left pre
      (List.Perm.cons a (List.Perm.append hperm (List.Perm.refl _)))
  · rw [hrs]
    conv_rhs => rw [hr]
    exact head?_append_cons pre a _ _
  · rw [hrs]
    conv_rhs => rw [hr]
    rw [getLast?_append_cons pre a, getLast?_append_cons pre a]
    have hx : ∀ X : List Point, (a :: (X ++ e :: post)).getLast? = (e :: post).getLast? := by
      intro X
      rw [show a :: (X ++ e :: post) = (a :: X) ++ e :: post by simp]
      exact getLast?_append_cons (a :: X) e post
    rw [hx, hx]

/-- Invariant of the inner 2-opt loop: length, total distance, permutation,
and endpoints are all preserved (distance never increases). -/
lemma twoOptJ_inv (d : Point → Point → ℚ) (hsym : ∀ p q, d p q = d q p)
    (n i : Nat) (hi : 1 ≤ i) :
    ∀ fuel j r improved, r.length = n → i < j →
      (twoOptJ d n i fuel j r improved).1.length = n ∧
      calculateRouteDistance d (twoOptJ d n i fuel j r improved).1 ≤
        calculateRouteDistance d r ∧
      r.Perm (twoOptJ d n i fuel j r improved).1 ∧
      (twoOptJ d n i fuel j r improved).1.head? = r.head? ∧
      (twoOptJ d n i fuel j r improved).1.getLast? = r.getLast? := by
  intro fuel
  induction fuel with
  | zero =>
    intro j r improved hlen hij
    exact ⟨hlen, le_refl _, List.Perm.refl _, rfl, rfl⟩
  | succ fuel ih =>
    intro j r improved hlen hij
    rw [twoOptJ]
    by_cases hcond : j < n - 1
    · rw [if_pos hcond]
      have hj1 : j + 1 < r.length := by omega
      by_cases hguard : d (r.getD (i - 1) default) (r.getD j default) +
            d (r.getD i default) (r.getD (j + 1) default) <
          d (r.getD (i - 1) default) (r.getD i default) +
            d (r.getD j default) (r.getD (j + 1) default)
      · rw [if_pos hguard]
        obtain ⟨slen, sle, sperm, shead, slast⟩ :=
          reverseSegment_step d hsym r i j hi hij hj1 hguard
        obtain ⟨ilen, ile, iperm, ihead, ilast⟩ :=
          ih (j + 1) (reverseSegment r i j) true (by omega) (by omega)
        exact ⟨ilen, le_trans ile sle, sperm.trans iperm,
          ihead.trans shead, ilast.trans slast⟩
      · rw [if_neg hguard]
        exact ih (j + 1) r improved hlen (by omega)
    · rw [if_neg hcond]
      exact ⟨hlen, le_refl _, List.Perm.refl _, rfl, rfl⟩

/-- Invariant of the outer 2-opt loop. -/
lemma twoOptI_inv (d : Point → Point → ℚ) (hsym : ∀ p q, d p q = d q p) (n : Nat) :
    ∀ fuel i r improved, r.length = n → 1 ≤ i →
      (twoOptI d n fuel i r improved).1.length = n ∧
      calculateRouteDistance d (twoOptI d n fuel i r improved).1 ≤
        calculateRouteDistance d r ∧
      r.Perm (twoOptI d n fuel i r improved).1 ∧
      (twoOptI d n fuel i r improved).1.head? = r.head? ∧
      (twoOptI d n fuel i r improved).1.getLast? = r.getLast? := by
  intro fuel
  induction fuel with
  | zero =>
    intro i r improved hlen hi
    exact ⟨hlen, le_refl _, List.Perm.refl _, rfl, rfl⟩
  | succ fuel ih =>
    intro i r improved hlen hi
    rw [twoOptI]
    by_cases hcond : i < n - 2
    · rw [if_pos hcond]
      obtain ⟨jlen, jle, jperm, jhead, jlast⟩ :=
        twoOptJ_inv d hsym n i hi n (i + 1) r improved hlen (by omega)
      obtain ⟨ilen, ile, iperm, ihead, ilast⟩ :=
        ih (i + 1) (twoOptJ d n i n (i + 1) r improved).1
          (twoOptJ d n i n (i + 1) r improved).2 jlen (by omega)
      exact ⟨ilen, le_trans ile jle, jperm.trans iperm,
        ihead.trans jhead, ilast.trans jlast⟩
    · rw [if_neg hcond]
      exact ⟨hlen, le_refl _, List.Perm.refl _, rfl, rfl⟩

/-- Invariant of the `while` driver of `twoOptOptimize`. -/
lemma twoOptWhile_inv (d : Point → Point → ℚ) (hsym : ∀ p q, d p q = d q p) (n : Nat) :
    ∀ fuel r, r.length = n →
      (twoOptWhile d n fuel r).length = n ∧
      calculateRouteDistance d (twoOptWhile d n fuel r) ≤ calculateRouteDistance d r ∧
      r.Perm (twoOptWhile d n fuel r) ∧
      (twoOptWhile d n fuel r).head? = r.head? ∧
      (twoOptWhile d n fuel r).getLast? = r.getLast? := by
  intro fuel
  induction fuel with
  | zero =>
    intro r hlen
    exact ⟨hlen, le_refl _, List.Perm.refl _, rfl, rfl⟩
  | succ fuel ih =>
    intro r hlen
    rw [twoOptWhile]
    obtain ⟨ilen, ile, iperm, ihead, ilast⟩ := twoOptI_inv d hsym n n 1 r false hlen le_rfl
    by_cases himp : (twoOptI d n n 1 r false).2 = true
    · rw [if_pos himp]
      obtain ⟨wlen, wle, wperm, whead, wlast⟩ := ih (twoOptI d n n 1 r false).1 ilen
      exact ⟨wlen, le_trans wle ile, iperm.trans wperm,
        whead.trans ihead, wlast.trans ilast⟩
    · rw [if_neg himp]
      exact ⟨ilen, ile, iperm, ihead, ilast⟩

/-- `twoOptOptimize` never increases route length, returns a permutation of
its input, and keeps the endpoints. -/
lemma twoOptOptimize_inv (d : Point → Point → ℚ) (hsym : ∀ p q, d p q = d q p)
    (route : List Point) (maxIterations : Nat) :
    calculateRouteDistance d (twoOptOptimize d route maxIterations) ≤
      calculateRouteDistance d route ∧
    route.Perm (twoOptOptimize d route maxIterations) ∧
    (twoOptOptimize d route maxIterations).head? = route.head? ∧
    (twoOptOptimize d route maxIterations).getLast? = route.getLast? := by
  rw [twoOptOptimize]
  by_cases hlen : route.length < 4
  · rw [if_pos hlen]
    exact ⟨le_refl _, List.Perm.refl _, rfl, rfl⟩
  · rw [if_neg hlen]
    obtain ⟨_, hle, hperm, hhead, hlast⟩ :=
      twoOptWhile_inv d hsym route.length maxIterations route rfl
    exact ⟨hle, hperm, hhead, hlast⟩

/-- Structural part of `reverseSegment_step`, with no assumption on the
distance function: length, permutation and endpoints. -/
lemma reverseSegment_struct (r : List Point) (i j : Nat)
    (h1 : 1 ≤ i) (h2 : i < j) (h3 : j + 1 < r.length) :
    (reverseSegment r i j).length = r.length ∧
    r.Perm (reverseSegment r i j) ∧
    (reverseSegment r i j).head? = r.head? ∧
    (reverseSegment r i j).getLast? = r.getLast? := by
  obtain ⟨hr, hrs⟩ := reverseSegment_decomp r i j h1 h2 h3
  set pre := r.take (i - 1) with hpre
  set mid := (r.drop (i + 1)).take (j - i - 1) with hmid
  set post := r.drop (j + 2) with hpost
  set a := r.getD (i - 1) default
  set b := r.getD i default
  set c := r.getD j default
  set e := r.getD (j + 1) default
  have hperm : (b :: mid ++ [c]).Perm (c :: mid.reverse ++ [b]) := by
    have h := (List.reverse_perm (b :: mid ++ [c])).symm
    simpa using h
  refine ⟨?_, ?_, ?_, ?_⟩
  · rw [hrs]
    conv_rhs => rw [hr]
    simp
  · conv_lhs => rw [hr]
    rw [hrs]
    exact List.Perm.append_left pre
      (List.Perm.cons a (List.Perm.append hperm (List.Perm.refl _)))
  · rw [hrs]
    conv_rhs => rw [hr]
    exact head?_append_cons pre a _ _
  · rw [hrs]
    conv_rhs => rw [hr]
    rw [getLast?_append_cons pre a, getLast?_append_cons pre a]
    have hx : ∀ X : List Point, (a :: (X ++ e :: post)).getLast? = (e :: post).getLast? := by
      intro X
      rw [show a :: (X ++ e :: post) = (a :: X) ++ e :: post by simp]
      exact getLast?_append_cons (a :: X) e post
    rw [hx, hx]

/-- Structural invariant of the inner 2-opt loop, for any distance function. -/
lemma twoOptJ_struct (d : Point → Point → ℚ) (n i : Nat) (hi : 1 ≤ i) :
    ∀ fuel j r improved, r.length = n → i < j →
      (twoOptJ d n i fuel j r improved).1.length = n ∧
      r.Perm (twoOptJ d n i fuel j r improved).1 ∧
      (twoOptJ d n i fuel j r improved).1.head? = r.head? ∧
      (twoOptJ d n i fuel j r improved).1.getLast? = r.getLast? := by
  intro fuel
  induction fuel with
  | zero =>
    intro j r improved hlen hij
    exact ⟨hlen, List.Perm.refl _, rfl, rfl⟩
  | succ fuel ih =>
    intro j r improved hlen hij
    rw [twoOptJ]
    by_cases hcond : j < n - 1
    · rw [if_pos hcond]
      have hj1 : j + 1 < r.length := by omega
      by_cases hguard : d (r.getD (i - 1) default) (r.getD j default) +
            d (r.getD i default) (r.getD (j + 1) default) <
          d (r.getD (i - 1) default) (r.getD i default) +
            d (r.getD j default) (r.getD (j + 1) default)
      · rw [if_pos hguard]
        obtain ⟨slen, sperm, shead, slast⟩ :=
          reverseSegment_struct r i j hi hij hj1
        obtain ⟨ilen, iperm, ihead, ilast⟩ :=
          ih (j + 1) (reverseSegment r i j) true (by omega) (by omega)
        exact ⟨ilen, sperm.trans iperm, ihead.trans shead, ilast.trans slast⟩
      · rw [if_neg hguard]
        exact ih (j + 1) r improved hlen (by omega)
    · rw [if_neg hcond]
      exact ⟨hlen, List.Perm.refl _, rfl, rfl⟩

/-- Structural invariant of the outer 2-opt loop, for any distance function. -/
lemma twoOptI_struct (d : Point → Point → ℚ) (n : Nat) :
    ∀ fuel i r improved, r.length = n → 1 ≤ i →
      (twoOptI d n fuel i r improved).1.length = n ∧
      r.Perm (twoOptI d n fuel i r improved).1 ∧
      (twoOptI d n fuel i r improved).1.head? = r.head? ∧
      (twoOptI d n fuel i r improved).1.getLast? = r.getLast? := by
  intro fuel
  induction fuel with
  | zero =>
    intro i r improved hlen hi
    exact ⟨hlen, List.Perm.refl _, rfl, rfl⟩
  | succ fuel ih =>
    intro i r improved hlen hi
    rw [twoOptI]
    by_cases hcond : i < n - 2
    · rw [if_pos hcond]
      obtain ⟨jlen, jperm, jhead, jlast⟩ :=
        twoOptJ_struct d n i hi n (i + 1) r improved hlen (by omega)
      obtain ⟨ilen, iperm, ihead, ilast⟩ :=
        ih (i + 1) (twoOptJ d n i n (i + 1) r improved).1
          (twoOptJ d n i n (i + 1) r improved).2 jlen (by omega)
      exact ⟨ilen, jperm.trans iperm, ihead.trans jhead, ilast.trans jlast⟩
    · rw [if_neg hcond]
      exact ⟨hlen, List.Perm.refl _, rfl, rfl⟩

/-- Structural invariant of the 2-opt `while` driver. -/
lemma twoOptWhile_struct (d : Point → Point → ℚ) (n : Nat) :
    ∀ fuel r, r.length = n →
      (twoOptWhile d n fuel r).length = n ∧
      r.Perm (twoOptWhile d n fuel r) ∧
      (twoOptWhile d n fuel r).head? = r.head? ∧
      (twoOptWhile d n fuel r).getLast? = r.getLast? := by
  intro fuel
  induction fuel with
  | zero =>
    intro r hlen
    exact ⟨hlen, List.Perm.refl _, rfl, rfl⟩
  | succ fuel ih =>
    intro r hlen
    rw [twoOptWhile]
    obtain ⟨ilen, iperm, ihead, ilast⟩ := twoOptI_struct d n n 1 r false hlen le_rfl
    by_cases himp : (twoOptI d n n 1 r false).2 = true
    · rw [if_pos himp]
      obtain ⟨wlen, wperm, whead, wlast⟩ := ih (twoOptI d n n 1 r false).1 ilen
      exact ⟨wlen, iperm.trans wperm, whead.trans ihead, wlast.trans ilast⟩
    · rw [if_neg himp]
      exact ⟨ilen, iperm, ihead, ilast⟩

/-- C3: for every input list of at least 4 points, the total route length of
the 2-opt-optimized route is at most the total route length of the
nearest-neighbor route it was built from, for the same start point and
roundtrip flag (for any symmetric distance function, in particular the
geodesic distance used by the source). -/
theorem claim_C3_twoOpt_le_nearestNeighbor (d : Point → Point → ℚ)
    (hsym : ∀ p q, d p q = d q p) (points : List Point) (startPoint : Point)
    (roundtrip : Bool) (_hlen : 4 ≤ points.length) (maxIterations : Nat) :
    calculateRouteDistance d
        (twoOptOptimize d (nearestNeighbor d points startPoint roundtrip) maxIterations) ≤
      calculateRouteDistance d (nearestNeighbor d points startPoint roundtrip) :=
  (twoOptOptimize_inv d hsym (nearestNeighbor d points startPoint roundtrip)
    maxIterations).1

theorem claim_C3_witness :
    (∀ p q, taxicab p q = taxicab q p) ∧ 4 ≤ witnessPoints.length ∧
    calculateRouteDistance taxicab
        (twoOptOptimize taxicab (nearestNeighbor taxicab witnessPoints ⟨0, 0⟩ true) 100) ≤
      calculateRouteDistance taxicab (nearestNeighbor taxicab witnessPoints ⟨0, 0⟩ true) :=
  ⟨fun p q => by simp [taxicab, abs_sub_comm], by decide,
    claim_C3_twoOpt_le_nearestNeighbor taxicab
      (fun p q => by simp [taxicab, abs_sub_comm]) witnessPoints ⟨0, 0⟩ true
      (by decide) 100⟩

/-- C10: for every input route, `twoOptOptimize` returns a route with the
same multiset of points, with the first and last points unchanged; the
source operates on a copy `[...route]` of its input (the embedding is a pure
function of the input list). -/
theorem claim_C10_twoOpt_perm_endpoints (d : Point → Point → ℚ)
    (route : List Point) (maxIterations : Nat) :
    route.Perm (twoOptOptimize d route maxIterations) ∧
    (twoOptOptimize d route maxIterations).head? = route.head? ∧
    (twoOptOptimize d route maxIterations).getLast? = route.getLast? := by
  rw [twoOptOptimize]
  by_cases hlen : route.length < 4
  · rw [if_pos hlen]
    exact ⟨List.Perm.refl _, rfl, rfl⟩
  · rw [if_neg hlen]
    obtain ⟨_, hperm, hhead, hlast⟩ :=
      twoOptWhile_struct d route.length maxIterations route rfl
    exact ⟨hperm, hhead, hlast⟩

/-- C7: round-trip of the cell-index mapping: with positive steps and exact
rational arithmetic, decoding `cellCenter(i,j)` through the inverse of the
origin/step mapping (`floor((coordinate - origin)/step)`, modelled from the
spec) recovers `(i, j)` exactly, on each axis. -/
theorem claim_C7_cell_roundtrip (originLat originLon latStep lonStep : ℚ)
    (i j : ℤ) (hlat : 0 < latStep) (hlon : 0 < lonStep) :
    invCellIndex originLat latStep (cellCenterCoord originLat latStep i) = i ∧
    invCellIndex originLon lonStep (cellCenterCoord originLon lonStep j) = j := by
  have key : ∀ (o s : ℚ) (k : ℤ), 0 < s →
      invCellIndex o s (cellCenterCoord o s k) = k := by
    intro o s k hs
    rw [invCellIndex, cellCenterCoord]
    rw [show o + ((k : ℚ) + 1/2) * s - o = ((k : ℚ) + 1/2) * s by ring]
    rw [mul_div_assoc, div_self (ne_of_gt hs), mul_one]
    rw [Int.floor_int_add]
    norm_num
  exact ⟨key originLat latStep i hlat, key originLon lonStep j hlon⟩

theorem claim_C7_witness :
    (0 : ℚ) < 1/2 ∧ (0 : ℚ) < 1/3 ∧
    (invCellIndex 47 (1/2) (cellCenterCoord 47 (1/2) (-7)) = -7 ∧
      invCellIndex 11 (1/3) (cellCenterCoord 11 (1/3) 5) = 5) :=
  ⟨by norm_num, by norm_num,
    claim_C7_cell_roundtrip 47 11 (1/2) (1/3) (-7) 5 (by norm_num) (by norm_num)⟩

/-- Each loop body of `optimizeWaypoints` appends exactly one waypoint,
carrying the loop index as `squareIndex`, and records the index as skipped
exactly when that waypoint has `hasRoad = false`. -/
lemma optimizeWaypointsStep_spec {Sq Rd : Type} (roadsIn : Sq → List Rd)
    (bestWp : List Rd → Sq → Option WpCore) (center : Sq → Point)
    (i : Nat) (square : Sq) (acc : WpResults) :
    ∃ w : Waypoint,
      (optimizeWaypointsStep roadsIn bestWp center i square acc).waypoints =
        acc.waypoints ++ [w] ∧
      w.squareIndex = i ∧
      (optimizeWaypointsStep roadsIn bestWp center i square acc).skippedSquares =
        acc.skippedSquares ++ (if w.hasRoad then [] else [i]) := by
  rw [optimizeWaypointsStep]
  by_cases hroads : (roadsIn square).length > 0
  · rw [if_pos hroads]
    match hbw : bestWp (roadsIn square) square with
    | some waypoint =>
      exact ⟨⟨waypoint.pt, waypoint.type, i, true⟩, rfl, rfl, by simp⟩
    | none =>
      exact ⟨⟨center square, "center-fallback", i, false⟩, rfl, rfl, by simp⟩
  · rw [if_neg hroads]
    exact ⟨⟨center square, "no-road", i, false⟩, rfl, rfl, by simp⟩

/-- Loop invariant of `optimizeWaypoints`: the waypoints produced after the
accumulator carry consecutive `squareIndex` values, and the skipped indices
extend by exactly the road-less waypoints' indices. -/
lemma optimizeWaypointsGo_spec {Sq Rd : Type} (roadsIn : Sq → List Rd)
    (bestWp : List Rd → Sq → Option WpCore) (center : Sq → Point) :
    ∀ (squares : List Sq) (i : Nat) (acc : WpResults),
      ∃ new : List Waypoint,
        (optimizeWaypointsGo roadsIn bestWp center i squares acc).waypoints =
          acc.waypoints ++ new ∧
        new.map (·.squareIndex) = List.range' i squares.length ∧
        (optimizeWaypointsGo roadsIn bestWp center i squares acc).skippedSquares =
          acc.skippedSquares ++
            ((new.filter fun w => w.hasRoad = false).map (·.squareIndex)) := by
  intro squares
  induction squares with
  | nil =>
    intro i acc
    exact ⟨[], by simp [optimizeWaypointsGo], by simp, by simp [optimizeWaypointsGo]⟩
  | cons square rest ih =>
    intro i acc
    obtain ⟨w, hw, hwi, hsk⟩ :=
      optimizeWaypointsStep_spec roadsIn bestWp center i square acc
    obtain ⟨new, hnew, hnewi, hnewsk⟩ :=
      ih (i + 1) (optimizeWaypointsStep roadsIn bestWp center i square acc)
    refine ⟨w :: new, ?_, ?_, ?_⟩
    · rw [optimizeWaypointsGo, hnew, hw]
      simp
    · simp only [List.map_cons, hnewi, hwi, List.length_cons, List.range'_succ]
    · rw [optimizeWaypointsGo, hnewsk, hsk]
      by_cases hr : w.hasRoad
      · simp [hr]
      · simp only [Bool.not_eq_true] at hr
        simp [hr, hwi]

/-- C9: for every list of squares and every road set (road/cell geometry
abstracted as the functions the source calls into Turf.js),
`optimizeWaypoints` returns exactly one waypoint per input square in input
order with `squareIndex = k` for the `k`-th waypoint, and `skippedSquares`
records exactly the indices of the waypoints with `hasRoad = false`. -/
theorem claim_C9_optimizeWaypoints_indices {Sq Rd : Type}
    (roadsIn : Sq → List Rd) (bestWp : List Rd → Sq → Option WpCore)
    (center : Sq → Point) (squares : List Sq) :
    ((optimizeWaypoints roadsIn bestWp center squares).waypoints.map
        (·.squareIndex)) = List.range squares.length ∧
    (optimizeWaypoints roadsIn bestWp center squares).skippedSquares =
      (((optimizeWaypoints roadsIn bestWp center squares).waypoints.filter
          fun w => w.hasRoad = false).map (·.squareIndex)) := by
  obtain ⟨new, hnew, hnewi, hnewsk⟩ :=
    optimizeWaypointsGo_spec roadsIn bestWp center squares 0
      ⟨[], [], ⟨squares.length, 0, 0, 0, 0, 0⟩⟩
  rw [optimizeWaypoints]
  constructor
  · rw [hnew]
    simpa [List.range_eq_range'] using hnewi
  · rw [hnew, hnewsk]
    simp

/-- Size bound for the sampling loop: it emits no element, or its emissions
keep `i + step * count` within `length - 2 + step`. -/
lemma minimalSampleLoop_count (waypoints : List Point) (step : Nat) :
    ∀ fuel i, (minimalSampleLoop waypoints step i fuel).length = 0 ∨
      i + step * (minimalSampleLoop waypoints step i fuel).length ≤
        waypoints.length - 2 + step := by
  intro fuel
  induction fuel with
  | zero => intro i; left; rfl
  | succ fuel ih =>
    intro i
    rw [minimalSampleLoop]
    by_cases hcond : i < waypoints.length - 1
    · rw [if_pos hcond]
      rcases ih (i + step) with h0 | hle
      · right
        simp only [List.length_cons, h0]
        omega
      · right
        simp only [List.length_cons]
        have : i + step + step * (minimalSampleLoop waypoints step (i + step) fuel).length ≤
            waypoints.length - 2 + step := hle
        have hmul : step * ((minimalSampleLoop waypoints step (i + step) fuel).length + 1) =
            step + step * (minimalSampleLoop waypoints step (i + step) fuel).length := by
          ring
        omega
    · rw [if_neg hcond]
      left; rfl

/-- The last waypoint is a member of every suffix that starts within the
list. -/
lemma getLastD_mem_drop (waypoints : List Point) (k : Nat)
    (hk : k < waypoints.length) :
    waypoints.getLastD default ∈ waypoints.drop k := by
  have h1 : waypoints.length - 1 < waypoints.length := by omega
  have hlast : waypoints.getLastD default = waypoints[waypoints.length - 1] := by
    rw [List.getLastD_eq_getLast?, List.getLast?_eq_getElem?,
      List.getElem?_eq_getElem h1]
    rfl
  have hidx : waypoints.length - 1 - k < (waypoints.drop k).length := by
    rw [List.length_drop]; omega
  have heq : (waypoints.drop k)[waypoints.length - 1 - k] =
      waypoints[waypoints.length - 1] := by
    rw [List.getElem_drop]
    congr 1
    omega
  rw [hlast, ← heq]
  exact List.getElem_mem hidx

/-- The sampling loop followed by the final waypoint is a subsequence of the
corresponding suffix of the input. -/
lemma minimalSampleLoop_sublist (waypoints : List Point) (step : Nat)
    (hstep : 1 ≤ step) (hne : waypoints ≠ []) :
    ∀ fuel i, List.Sublist
      (minimalSampleLoop waypoints step i fuel ++ [waypoints.getLastD default])
      (waypoints.drop (min i (waypoints.length - 1))) := by
  have hlen1 : waypoints.length - 1 < waypoints.length := by
    cases waypoints with
    | nil => simp at hne
    | cons a l => simp
  intro fuel
  induction fuel with
  | zero =>
    intro i
    rw [minimalSampleLoop]
    rw [List.nil_append, List.singleton_sublist]
    exact getLastD_mem_drop waypoints _ (by omega)
  | succ fuel ih =>
    intro i
    rw [minimalSampleLoop]
    by_cases hcond : i < waypoints.length - 1
    · rw [if_pos hcond]
      have hmin : min i (waypoints.length - 1) = i := by omega
      rw [hmin]
      have hi : i < waypoints.length := by omega
      have hdrop : waypoints.drop i = waypoints[i] :: waypoints.drop (i + 1) :=
        List.drop_eq_getElem_cons hi
      have hgetD : waypoints.getD i default = waypoints[i] := by
        simp [List.getD_eq_getElem?_getD, List.getElem?_eq_getElem hi]
      rw [hdrop, List.cons_append, hgetD]
      refine List.Sublist.cons₂ _ ?_
      have hsub := ih (i + step)
      have hmono : List.Sublist
          (waypoints.drop (min (i + step) (waypoints.length - 1)))
          (waypoints.drop (i + 1)) := by
        have : waypoints.drop (min (i + step) (waypoints.length - 1)) =
            (waypoints.drop (i + 1)).drop
              (min (i + step) (waypoints.length - 1) - (i + 1)) := by
          rw [List.drop_drop]
          congr 1
          omega
        rw [this]
        exact List.drop_sublist _ _
      exact hsub.trans hmono
    · rw [if_neg hcond]
      rw [List.nil_append, List.singleton_sublist]
      exact getLastD_mem_drop waypoints _ (by omega)

/-- C8: for every input waypoint list, the minimal-skeleton fallback keeps
the first and last waypoints, has at most 8 intermediate points (at most 10
points in total), and is an order-preserving subsequence of the input,
sampled at the fixed stride. -/
theorem claim_C8_createMinimalWaypoints (waypoints : List Point) :
    (createMinimalWaypoints waypoints).head? = waypoints.head? ∧
    (createMinimalWaypoints waypoints).getLast? = waypoints.getLast? ∧
    (createMinimalWaypoints waypoints).length ≤ 10 ∧
    List.Sublist (createMinimalWaypoints waypoints) waypoints := by
  rw [createMinimalWaypoints]
  by_cases hle : waypoints.length ≤ 3
  · rw [if_pos hle]
    exact ⟨rfl, rfl, by omega, List.Sublist.refl _⟩
  · rw [if_neg hle]
    dsimp only
    have h4 : 4 ≤ waypoints.length := by omega
    set n := waypoints.length with hn
    set m := min 8 (n - 2) with hm
    set step := (n - 2 + m - 1) / m with hstepdef
    have hm1 : 1 ≤ m := by omega
    have hm8 : m ≤ 8 := by omega
    have hstep1 : 1 ≤ step := by
      rw [hstepdef, Nat.le_div_iff_mul_le (by omega : 0 < m)]
      omega
    have hcover : n - 2 ≤ m * step := by
      have h1 := Nat.div_add_mod (n - 2 + m - 1) m
      have h2 := Nat.mod_lt (n - 2 + m - 1) (by omega : 0 < m)
      rw [hstepdef]
      generalize hq : m * ((n - 2 + m - 1) / m) = A at h1 ⊢
      omega
    set samples := minimalSampleLoop waypoints step step n with hsamples
    have hL8 : samples.length ≤ 8 := by
      rcases minimalSampleLoop_count waypoints step n step with h0 | hle'
      · rw [hsamples]; omega
      · rw [hsamples]
        have hLm : step * (minimalSampleLoop waypoints step step n).length ≤ 8 * step := by
          calc step * (minimalSampleLoop waypoints step step n).length ≤ n - 2 := by omega
            _ ≤ m * step := hcover
            _ ≤ 8 * step := by
                have := Nat.mul_le_mul_right step hm8
                omega
        have := Nat.le_of_mul_le_mul_right
          (by calc (minimalSampleLoop waypoints step step n).length * step
                = step * (minimalSampleLoop waypoints step step n).length := by ring
            _ ≤ 8 * step := hLm) (by omega : 0 < step)
        exact this
    obtain ⟨w₀, tail, hwps⟩ : ∃ w₀ tail, waypoints = w₀ :: tail := by
      cases waypoints with
      | nil => simp [hn] at h4
      | cons a l => exact ⟨a, l, rfl⟩
    have hgetD0 : waypoints.getD 0 default = w₀ := by rw [hwps]; rfl
    have hlastD : waypoints.getLast? = some (waypoints.getLastD default) := by
      rw [hwps, List.getLastD_eq_getLast?]
      cases h : (w₀ :: tail).getLast? with
      | none => simp at h
      | some y => rfl
    refine ⟨?_, ?_, ?_, ?_⟩
    · rw [hgetD0, hwps]
      rfl
    · have hassoc : waypoints.getD 0 default ::
          samples ++ [waypoints.getLastD default] =
          (waypoints.getD 0 default :: samples) ++ [waypoints.getLastD default] := by
        simp
      rw [hassoc, List.getLast?_concat, hlastD]
    · simp only [List.length_cons, List.length_append, List.length_nil]
      omega
    · have hsub := minimalSampleLoop_sublist waypoints step hstep1
        (by rw [hwps]; simp) n step
      have hmono : List.Sublist
          (waypoints.drop (min step (waypoints.length - 1))) tail := by
        have htail : tail = waypoints.drop 1 := by rw [hwps]; rfl
        rw [htail]
        have : waypoints.drop (min step (waypoints.length - 1)) =
            (waypoints.drop 1).drop (min step (waypoints.length - 1) - 1) := by
          rw [List.drop_drop]
          congr 1
          omega
        rw [this]
        exact List.drop_sublist _ _
      rw [hgetD0]
      conv_rhs => rw [hwps]
      exact List.Sublist.cons₂ w₀ ((hsub.trans) hmono)

/-- Every profile list starting with a profile produces at least one attempt. -/
lemma tryProfilesAttempts_cons_ne_nil {G : Type} (api : String → Except RoutingError G)
    (p : String) (rest : List String) :
    1 ≤ (tryProfilesAttempts api (p :: rest)).length := by
  rw [tryProfilesAttempts]
  cases api p with
  | ok g => simp
  | error e =>
    by_cases hcov : isCoverageError e = true
    · simp [hcov]
    · simp [hcov]

/-- The attempted profiles are an initial prefix of the profile list. -/
lemma tryProfilesAttempts_take {G : Type} (api : String → Except RoutingError G) :
    ∀ profiles : List String,
      tryProfilesAttempts api profiles =
        profiles.take (tryProfilesAttempts api profiles).length := by
  intro profiles
  induction profiles with
  | nil => rfl
  | cons p rest ih =>
    rw [tryProfilesAttempts]
    cases api p with
    | ok g => simp
    | error e =>
      by_cases hcov : isCoverageError e = true
      · simp only [hcov, if_pos]
        rw [List.length_cons, List.take_succ_cons]
        exact congrArg (p :: ·) ih
      · simp [hcov]

/-- Characterization of the profile-fallback loop: after a failed attempt the
next profile is attempted exactly when the failure was a coverage error (and
a next profile exists). -/
lemma tryProfilesAttempts_next_iff {G : Type} (api : String → Except RoutingError G) :
    ∀ (profiles : List String) (k : Nat),
      k < (tryProfilesAttempts api profiles).length →
      (k + 1 < (tryProfilesAttempts api profiles).length ↔
        (k + 1 < profiles.length ∧
          ∃ e, api (profiles.getD k "") = .error e ∧ isCoverageError e = true)) := by
  intro profiles
  induction profiles with
  | nil =>
    intro k hk
    simp [tryProfilesAttempts] at hk
  | cons p rest ih =>
    intro k hk
    rw [tryProfilesAttempts] at hk ⊢
    cases hap : api p with
    | ok g =>
      rw [hap] at hk
      dsimp only at hk ⊢
      simp only [List.length_singleton] at hk ⊢
      have hk0 : k = 0 := by omega
      subst hk0
      constructor
      · intro h; omega
      · rintro ⟨-, e, he, -⟩
        rw [List.getD_cons_zero] at he
        rw [he] at hap
        cases hap
    | error e =>
      rw [hap] at hk
      dsimp only at hk ⊢
      by_cases hcov : isCoverageError e = true
      · rw [if_pos hcov] at hk ⊢
        cases k with
        | zero =>
          simp only [List.length_cons] at hk ⊢
          constructor
          · intro h1
            have hrest : rest ≠ [] := by
              intro hnil
              rw [hnil] at h1
              simp [tryProfilesAttempts] at h1
            refine ⟨?_, e, by simpa using hap, hcov⟩
            cases rest with
            | nil => exact absurd rfl hrest
            | cons q t => simp
          · rintro ⟨hlen, -⟩
            cases rest with
            | nil => simp at hlen
            | cons q t =>
              have := tryProfilesAttempts_cons_ne_nil api q t
              omega
        | succ k' =>
          simp only [List.length_cons] at hk ⊢
          have hk' : k' < (tryProfilesAttempts api rest).length := by omega
          have := ih k' hk'
          constructor
          · intro h1
            obtain ⟨hlen, e', he', hcov'⟩ := this.mp (by omega)
            exact ⟨by simpa using hlen, e', by simpa using he', hcov'⟩
          · rintro ⟨hlen, e', he', hcov'⟩
            have : k' + 1 < (tryProfilesAttempts api rest).length :=
              this.mpr ⟨by simpa using hlen, e', by simpa using he', hcov'⟩
            omega
      · rw [if_neg hcov] at hk ⊢
        simp only [List.length_singleton] at hk ⊢
        have hk0 : k = 0 := by omega
        subst hk0
        constructor
        · intro h; omega
        · rintro ⟨-, e', he', hcov'⟩
          rw [List.getD_cons_zero] at he'
          rw [he'] at hap
          cases hap
          exact absurd hcov' hcov

/-- C1 (counterexample): the claim as stated is false: with a profile list
`["a", "b"]` and an API failing on `"a"` with a coverage error and
succeeding on `"b"`, the second profile is attempted even though the failure
was not generic. -/
theorem claim_C1_counterexample : ¬ ProfilesRetryOnGenericOnly := by
  intro h
  have h1 : (tryProfilesAttempts covThenOkApi ["a", "b"]).length = 2 := by decide
  have h2 := (h covThenOkApi ["a", "b"] 0 (by rw [h1]; omega)).mp (by rw [h1]; omega)
  obtain ⟨-, e, he, hcov⟩ := h2
  have he' : covThenOkApi (["a", "b"].getD 0 "") = .error coverageErr := rfl
  rw [he'] at he
  cases he
  have : isCoverageError coverageErr = true := by decide
  rw [this] at hcov
  cases hcov

/-- C1 (amended): in the fallback chain, the attempted profiles are an
initial prefix of the profile list, and after a failed attempt the *next*
profile is attempted if and only if that failure is a *coverage* error (a
generic routing failure stops the profile loop; this is the reverse of the
spec's tiering). -/
theorem claim_C1_amended_next_profile_iff_coverage {G : Type}
    (api : String → Except RoutingError G) (profiles : List String) (k : Nat)
    (hk : k < (tryProfilesAttempts api profiles).length) :
    tryProfilesAttempts api profiles =
      profiles.take (tryProfilesAttempts api profiles).length ∧
    (k + 1 < (tryProfilesAttempts api profiles).length ↔
      (k + 1 < profiles.length ∧
        ∃ e, api (profiles.getD k "") = .error e ∧ isCoverageError e = true)) :=
  ⟨tryProfilesAttempts_take api profiles,
    tryProfilesAttempts_next_iff api profiles k hk⟩

theorem claim_C1_amended_witness :
    0 < (tryProfilesAttempts covThenOkApi ["a", "b"]).length ∧
    (tryProfilesAttempts covThenOkApi ["a", "b"] =
      ["a", "b"].take (tryProfilesAttempts covThenOkApi ["a", "b"]).length ∧
    (0 + 1 < (tryProfilesAttempts covThenOkApi ["a", "b"]).length ↔
      (0 + 1 < (["a", "b"] : List String).length ∧
        ∃ e, covThenOkApi (["a", "b"].getD 0 "") = .error e ∧
          isCoverageError e = true))) :=
  ⟨by decide,
    claim_C1_amended_next_profile_iff_coverage covThenOkApi ["a", "b"] 0 (by decide)⟩

/-- C2 (counterexample): the claim as stated is false: with every attempt
failing on a coverage error, the orchestrator submits the unsimplified route
(level -1), advances a single level (0), and then goes straight to the
minimal tier; thresholds 1.0 km and 1.5 km are never tried. -/
theorem claim_C2_counterexample : ¬ TriesAllSimplificationLevels := by
  intro h
  obtain ⟨-, -, h2, -⟩ := h taxicab allCoverageApi "trekking" witnessRoute
    (fun wps p => ⟨coverageErr, rfl, by decide⟩)
  have hlv : (calculateRouteFallback taxicab allCoverageApi "trekking"
      witnessRoute).levelsTried = [-1, 0] := by decide
  rw [hlv] at h2
  exact absurd h2 (by decide)

/-- C2 (amended): on a coverage error the orchestrator advances the
simplification by at most one level before the minimal tier (the level-2
threshold of 1.5 km is unreachable), and any returned route is flagged
`simplified = true` exactly when it came from the simplification retry or
the minimal tier, with `minimal = true` exactly when the minimal tier
succeeded. -/
theorem claim_C2_amended_single_simplification_step {G : Type}
    (dist : Point → Point → ℚ)
    (api : List Point → String → Except RoutingError G)
    (bikeType : String) (route : List Point) :
    (∀ l ∈ (calculateRouteFallback dist api bikeType route).levelsTried, l ≤ 1) ∧
    (∀ resp, (calculateRouteFallback dist api bikeType route).response = some resp →
      ((resp.simplified = true ↔
          ((calculateRouteFallback dist api bikeType route).succeededAt = some 2 ∨
            (calculateRouteFallback dist api bikeType route).succeededAt = some 3)) ∧
        (resp.minimal = true ↔
          (calculateRouteFallback dist api bikeType route).succeededAt = some 3))) := by
  simp only [calculateRouteFallback]
  repeat' split
  all_goals refine ⟨fun l hl => ?_, fun resp hresp => ?_⟩
  all_goals first
    | (simp only [List.mem_cons, List.mem_singleton, List.not_mem_nil, or_false] at hl
       rcases hl with rfl | rfl <;> norm_num)
    | (obtain rfl := Option.some.inj hresp
       simp)
    | cases hresp

/-- Membership in an integer range. -/
lemma mem_intRange (lo hi x : ℤ) : x ∈ intRange lo hi ↔ lo ≤ x ∧ x ≤ hi := by
  rw [intRange, List.mem_map]
  constructor
  · rintro ⟨n, hn, rfl⟩
    rw [List.mem_range, Int.lt_toNat] at hn
    omega
  · rintro ⟨h1, h2⟩
    refine ⟨(x - lo).toNat, ?_, ?_⟩
    · rw [List.mem_range, Int.lt_toNat, Int.toNat_of_nonneg (by omega)]
      omega
    · rw [Int.toNat_of_nonneg (by omega)]
      omega

/-- Membership in the scan enumeration of a bounds rectangle. -/
lemma mem_cellsInBounds (b : GridBounds) (k : CellKey) :
    k ∈ cellsInBounds b ↔ inBounds b k = true := by
  rw [cellsInBounds, inBounds]
  simp only [List.mem_flatMap, List.mem_map, decide_eq_true_eq]
  constructor
  · rintro ⟨i, hi, j, hj, rfl⟩
    rw [mem_intRange] at hi hj
    exact ⟨hi.1, hi.2, hj.1, hj.2⟩
  · rintro ⟨h1, h2, h3, h4⟩
    exact ⟨k.1, (mem_intRange _ _ _).mpr ⟨h1, h2⟩,
      k.2, (mem_intRange _ _ _).mpr ⟨h3, h4⟩, rfl⟩

/-- Invariants of the flood fill: the final shared set is the old one plus
the region; region cells were unprocessed, unvisited and in bounds; the
region has no duplicates. -/
lemma floodFill_spec (visitedSet : List CellKey) (inB : CellKey → Bool) :
    ∀ fuel queue processed regionVisited,
      (∀ x, x ∈ (floodFill visitedSet inB fuel queue processed regionVisited).2 ↔
        x ∈ (floodFill visitedSet inB fuel queue processed regionVisited).1 ∨
          x ∈ processed) ∧
      (∀ x ∈ (floodFill visitedSet inB fuel queue processed regionVisited).1,
        x ∉ processed ∧ x ∉ visitedSet ∧ inB x = true) ∧
      (floodFill visitedSet inB fuel queue processed regionVisited).1.Nodup := by
  intro fuel
  induction fuel with
  | zero =>
    intro queue processed regionVisited
    refine ⟨fun x => ?_, fun x hx => absurd hx (List.not_mem_nil x), List.nodup_nil⟩
    simp [floodFill]
  | succ fuel ih =>
    intro queue processed regionVisited
    match queue with
    | [] =>
      refine ⟨fun x => ?_, fun x hx => absurd hx (List.not_mem_nil x), List.nodup_nil⟩
      simp [floodFill]
    | k :: queue =>
      rw [floodFill]
      by_cases hskip : k ∈ processed ∨ k ∈ visitedSet
      · rw [if_pos hskip]
        exact ih queue processed regionVisited
      · rw [if_neg hskip]
        by_cases hin : ¬ inB k = true
        · rw [if_pos hin]
          exact ih queue processed regionVisited
        · rw [if_neg hin]
          push_neg at hskip hin
          obtain ⟨hmem, hreg, hnd⟩ := ih
            (queue ++ (getNeighborKeys k).filter fun n =>
              n ∉ regionVisited ∧ n ∉ visitedSet ∧ inB n)
            (k :: processed)
            (((getNeighborKeys k).filter fun n =>
              n ∉ regionVisited ∧ n ∉ visitedSet ∧ inB n) ++ regionVisited)
          refine ⟨fun x => ?_, fun x hx => ?_, ?_⟩
          · rw [hmem x]
            simp only [List.mem_cons]
            tauto
          · simp only [List.mem_cons] at hx
            rcases hx with rfl | hx
            · exact ⟨hskip.1, hskip.2, hin⟩
            · obtain ⟨hxp, hxv, hxb⟩ := hreg x hx
              simp only [List.mem_cons] at hxp
              push_neg at hxp
              exact ⟨hxp.2, hxv, hxb⟩
          · refine List.Nodup.cons ?_ hnd
            intro hk
            obtain ⟨hxp, -, -⟩ := hreg k hk
            simp at hxp

/-- The first queue entry, if fresh, always makes it into the region. -/
lemma floodFill_seed (visitedSet : List CellKey) (inB : CellKey → Bool)
    (fuel : Nat) (k : CellKey) (queue processed regionVisited : List CellKey)
    (hp : k ∉ processed) (hv : k ∉ visitedSet) (hb : inB k = true) :
    k ∈ (floodFill visitedSet inB (fuel + 1) (k :: queue) processed
      regionVisited).1 := by
  rw [floodFill]
  rw [if_neg (by tauto), if_neg (by simp [hb])]
  exact List.mem_cons_self _ _

/-- Invariants of the hole-detection scan: the processed set is exactly the
union of the holes' cells; every hole cell is unvisited and in bounds; holes
have no duplicate cells and are pairwise disjoint; every unvisited in-bounds
cell of the scan list ends up processed; and processing is monotone. -/
lemma detectHolesLoop_inv (base : GridBounds) (visitedSet : List CellKey)
    (inB : CellKey → Bool) (fuel : Nat) (hfuel : 1 ≤ fuel) :
    ∀ (cells : List CellKey) (holes : List Hole) (processed : List CellKey),
      (∀ x, x ∈ processed ↔ ∃ h, h ∈ holes ∧ x ∈ h.cells) →
      (∀ h, h ∈ holes → h.cells.Nodup) →
      (∀ h, h ∈ holes → ∀ k, k ∈ h.cells → k ∉ visitedSet ∧ inB k = true) →
      List.Pairwise holesDisjoint holes →
      ((∀ x, x ∈ (detectHolesLoop base visitedSet inB fuel cells holes processed).2 ↔
          ∃ h, h ∈ (detectHolesLoop base visitedSet inB fuel cells holes processed).1 ∧
            x ∈ h.cells) ∧
        (∀ h, h ∈ (detectHolesLoop base visitedSet inB fuel cells holes processed).1 →
          h.cells.Nodup) ∧
        (∀ h, h ∈ (detectHolesLoop base visitedSet inB fuel cells holes processed).1 →
          ∀ k, k ∈ h.cells → k ∉ visitedSet ∧ inB k = true) ∧
        List.Pairwise holesDisjoint
          (detectHolesLoop base visitedSet inB fuel cells holes processed).1 ∧
        (∀ k, k ∈ cells → k ∉ visitedSet → inB k = true →
          k ∈ (detectHolesLoop base visitedSet inB fuel cells holes processed).2) ∧
        (∀ x, x ∈ processed →
          x ∈ (detectHolesLoop base visitedSet inB fuel cells holes processed).2)) := by
  obtain ⟨f, rfl⟩ : ∃ f, fuel = f + 1 := ⟨fuel - 1, by omega⟩
  intro cells
  induction cells with
  | nil =>
    intro holes processed hproc hnd hcells hdisj
    exact ⟨hproc, hnd, hcells, hdisj,
      fun k hk => absurd hk (List.not_mem_nil k), fun x hx => hx⟩
  | cons k cells ih =>
    intro holes processed hproc hnd hcells hdisj
    rw [detectHolesLoop]
    by_cases hskip : k ∈ processed ∨ k ∈ visitedSet
    · rw [if_pos hskip]
      obtain ⟨iproc, ind, icells, idisj, icov, imono⟩ :=
        ih holes processed hproc hnd hcells hdisj
      refine ⟨iproc, ind, icells, idisj, fun c hc hcv hcb => ?_, imono⟩
      rcases List.mem_cons.mp hc with rfl | hc
      · rcases hskip with hkp | hkv
        · exact imono c hkp
        · exact absurd hkv hcv
      · exact icov c hc hcv hcb
    · rw [if_neg hskip]
      push_neg at hskip
      obtain ⟨F1, F2, F3⟩ := floodFill_spec visitedSet inB (f + 1) [k] processed [k]
      set p := floodFill visitedSet inB (f + 1) [k] processed [k] with hp
      by_cases hlen : p.1.length > 0
      · rw [if_pos hlen]
        set hnew : Hole := ⟨holes.length, p.1, p.1.length,
          (p.1.map fun c => ((calculateLayerDistance base c : ℚ))).sum / p.1.length⟩
          with hhnew
        have hproc' : ∀ x, x ∈ p.2 ↔ ∃ h, h ∈ holes ++ [hnew] ∧ x ∈ h.cells := by
          intro x
          rw [F1 x, hproc x]
          constructor
          · rintro (hx | ⟨h, hh, hxh⟩)
            · exact ⟨hnew, by simp, hx⟩
            · exact ⟨h, by simp [hh], hxh⟩
          · rintro ⟨h, hh, hxh⟩
            rcases List.mem_append.mp hh with hh | hh
            · exact Or.inr ⟨h, hh, hxh⟩
            · rw [List.mem_singleton] at hh
              subst hh
              exact Or.inl hxh
        have hnd' : ∀ h, h ∈ holes ++ [hnew] → h.cells.Nodup := by
          intro h hh
          rcases List.mem_append.mp hh with hh | hh
          · exact hnd h hh
          · rw [List.mem_singleton] at hh
            subst hh
            exact F3
        have hcells' : ∀ h, h ∈ holes ++ [hnew] →
            ∀ c, c ∈ h.cells → c ∉ visitedSet ∧ inB c = true := by
          intro h hh c hch
          rcases List.mem_append.mp hh with hh | hh
          · exact hcells h hh c hch
          · rw [List.mem_singleton] at hh
            subst hh
            obtain ⟨-, hv, hb⟩ := F2 c hch
            exact ⟨hv, hb⟩
        have hdisj' : List.Pairwise holesDisjoint (holes ++ [hnew]) := by
          rw [List.pairwise_append]
          refine ⟨hdisj, List.pairwise_singleton _ _, ?_⟩
          intro h hh h' hh'
          rw [List.mem_singleton] at hh'
          subst hh'
          intro c hch hcn
          obtain ⟨hcp, -, -⟩ := F2 c hcn
          exact hcp ((hproc c).mpr ⟨h, hh, hch⟩)
        obtain ⟨iproc, ind, icells, idisj, icov, imono⟩ :=
          ih (holes ++ [hnew]) p.2 hproc' hnd' hcells' hdisj'
        refine ⟨iproc, ind, icells, idisj, fun c hc hcv hcb => ?_, fun x hx => ?_⟩
        · rcases List.mem_cons.mp hc with rfl | hc
          · have hck : c ∈ p.1 :=
              floodFill_seed visitedSet inB f c [] processed [c] hskip.1 hcv hcb
            exact imono c ((F1 c).mpr (Or.inl hck))
          · exact icov c hc hcv hcb
        · exact imono x ((F1 x).mpr (Or.inr hx))
      · rw [if_neg hlen]
        have hempty : p.1 = [] := by
          cases hq : p.1 with
          | nil => rfl
          | cons a t => rw [hq] at hlen; simp at hlen
        have hproc' : ∀ x, x ∈ p.2 ↔ ∃ h, h ∈ holes ∧ x ∈ h.cells := by
          intro x
          rw [F1 x, hempty, hproc x]
          simp
        obtain ⟨iproc, ind, icells, idisj, icov, imono⟩ :=
          ih holes p.2 hproc' hnd hcells hdisj
        refine ⟨iproc, ind, icells, idisj, fun c hc hcv hcb => ?_, fun x hx => ?_⟩
        · rcases List.mem_cons.mp hc with rfl | hc
          · have hck : c ∈ p.1 :=
              floodFill_seed visitedSet inB f c [] processed [c] hskip.1 hcv hcb
            rw [hempty] at hck
            exact absurd hck (List.not_mem_nil c)
          · exact icov c hc hcv hcb
        · exact imono x ((F1 x).mpr (Or.inr hx))

/-- C4: hole detection partitions the unvisited cells of the search bounds
(the base square expanded by 5 layers): every in-bounds cell not in the
visited set lies in some computed hole, no hole repeats a cell, and distinct
holes are pairwise disjoint — so each such cell belongs to exactly one hole. -/
theorem claim_C4_holes_partition (base : GridBounds) (visitedSet : List CellKey)
    (k : CellKey) (hin : inBounds (getSearchBounds base 5) k = true)
    (hnv : k ∉ visitedSet) :
    (∃ h, h ∈ (detectHoles base visitedSet).1 ∧ k ∈ h.cells) ∧
    (∀ h, h ∈ (detectHoles base visitedSet).1 → h.cells.Nodup) ∧
    List.Pairwise holesDisjoint (detectHoles base visitedSet).1 := by
  have hinv := detectHolesLoop_inv base visitedSet
    (inBounds (getSearchBounds base 5))
    ((cellsInBounds (getSearchBounds base 5)).length + 1) (by omega)
    (cellsInBounds (getSearchBounds base 5)) [] []
    (by simp) (by simp) (by simp) List.Pairwise.nil
  obtain ⟨iproc, ind, icells, idisj, icov, -⟩ := hinv
  rw [detectHoles]
  refine ⟨?_, ind, idisj⟩
  exact (iproc k).mp (icov k ((mem_cellsInBounds _ k).mpr hin) hnv hin)

theorem claim_C4_witness :
    inBounds (getSearchBounds ⟨0, 0, 0, 0⟩ 5) (3, -2) = true ∧
    ((3 : ℤ), (-2 : ℤ)) ∉ ([((0 : ℤ), (0 : ℤ))] : List CellKey) ∧
    ((∃ h, h ∈ (detectHoles ⟨0, 0, 0, 0⟩ [((0 : ℤ), (0 : ℤ))]).1 ∧
        ((3 : ℤ), (-2 : ℤ)) ∈ h.cells) ∧
      (∀ h, h ∈ (detectHoles ⟨0, 0, 0, 0⟩ [((0 : ℤ), (0 : ℤ))]).1 →
        h.cells.Nodup) ∧
      List.Pairwise holesDisjoint (detectHoles ⟨0, 0, 0, 0⟩ [((0 : ℤ), (0 : ℤ))]).1) :=
  ⟨by decide, by decide,
    claim_C4_holes_partition ⟨0, 0, 0, 0⟩ [((0 : ℤ), (0 : ℤ))] (3, -2)
      (by decide) (by decide)⟩

/-- Scoring keeps the candidate's cell key. -/
lemma scoreCandidate_key (base : GridBounds) (visitedSet : List CellKey)
    (direction : Option (List Dir)) (optimizationMode : String)
    (maxHoleSize : Nat) (c : Candidate) :
    (scoreCandidate base visitedSet direction optimizationMode maxHoleSize c).key =
      c.key := rfl

lemma mem_insertDesc (key : Scored → ℚ) (x y : Scored) (l : List Scored) :
    y ∈ insertDesc key x l ↔ y = x ∨ y ∈ l := by
  induction l with
  | nil => simp [insertDesc]
  | cons z t ih =>
    rw [insertDesc]
    by_cases hc : key z < key x
    · rw [if_pos hc]
      simp
    · rw [if_neg hc]
      simp only [List.mem_cons, ih]
      tauto

lemma mem_sortDesc (key : Scored → ℚ) (x : Scored) (l : List Scored) :
    x ∈ sortDesc key l ↔ x ∈ l := by
  induction l with
  | nil => simp [sortDesc]
  | cons z t ih =>
    rw [sortDesc, mem_insertDesc]
    simp only [List.mem_cons, ih]

/-- `withRouteScores` keeps every key property. -/
lemma withRouteScores_key_prop (P : CellKey → Prop)
    (holeId : CellKey → Option Nat) (selected : List Scored) (last : Scored)
    (remaining : List Scored) (hrem : ∀ s ∈ remaining, P s.key) :
    ∀ s ∈ withRouteScores holeId selected last remaining, P s.key := by
  intro s hs
  rw [withRouteScores, List.mem_map] at hs
  obtain ⟨sq, hsq, rfl⟩ := hs
  exact hrem sq hsq

/-- The greedy selection loop only emits elements satisfying any key
property shared by the already-selected and remaining candidates. -/
lemma greedyLoop_key_prop (P : CellKey → Prop) (holeId : CellKey → Option Nat) :
    ∀ (need : Nat) (selected remaining : List Scored),
      (∀ s ∈ selected, P s.key) → (∀ s ∈ remaining, P s.key) →
      ∀ s ∈ greedyLoop holeId need selected remaining, P s.key := by
  intro need
  induction need with
  | zero =>
    intro selected remaining hsel hrem s hs
    exact hsel s hs
  | succ need ih =>
    intro selected remaining hsel hrem s hs
    match remaining with
    | [] => exact hsel s hs
    | r :: rest =>
      rw [greedyLoop] at hs
      set last := selected.getLastD default
      have hmapped : ∀ t ∈ sortDesc (·.routeScore)
          (withRouteScores holeId selected last (r :: rest)), P t.key := by
        intro t ht
        rw [mem_sortDesc] at ht
        exact withRouteScores_key_prop P holeId selected last (r :: rest) hrem t ht
      cases hsort : sortDesc (·.routeScore)
          (withRouteScores holeId selected last (r :: rest)) with
      | nil =>
        rw [hsort] at hs
        exact hsel s hs
      | cons top rest' =>
        rw [hsort] at hs
        refine ih (selected ++ [top]) rest' (fun t ht => ?_) (fun t ht => ?_) s hs
        · rcases List.mem_append.mp ht with ht | ht
          · exact hsel t ht
          · rw [List.mem_singleton] at ht
            subst ht
            exact hmapped t (by rw [hsort]; exact List.mem_cons_self _ _)
        · exact hmapped t (by rw [hsort]; exact List.mem_cons.mpr (Or.inr ht))

/-- Every scored candidate's key is outside the visited set. -/
lemma scoredList_not_visited (base : GridBounds) (visitedSet : List CellKey)
    (direction : Option (List Dir)) (optimizationMode : String)
    (maxHoleSize : Nat) :
    ∀ s ∈ scoredList base visitedSet direction optimizationMode maxHoleSize,
      s.key ∉ visitedSet := by
  intro s hs
  rw [scoredList, List.mem_map] at hs
  obtain ⟨c, hc, rfl⟩ := hs
  rw [unvisitedCandidates, List.mem_filter] at hc
  rw [scoreCandidate_key]
  exact of_decide_eq_true hc.2

/-- C5: every cell selected and returned by the optimizer has a key that is
not a member of the supplied visited set. -/
theorem claim_C5_selected_not_visited (base : GridBounds) (targetNew : Nat)
    (direction : Option (List Dir)) (visitedSet : List CellKey)
    (optimizationMode : String) (maxHoleSize : Nat) (s : Scored)
    (hs : s ∈ optimizeSquareSelected base targetNew direction visitedSet
      optimizationMode maxHoleSize) :
    s.key ∉ visitedSet := by
  rw [optimizeSquareSelected] at hs
  have hscored := scoredList_not_visited base visitedSet direction
    optimizationMode maxHoleSize
  cases hsort : sortDesc (·.score)
      (scoredList base visitedSet direction optimizationMode maxHoleSize) with
  | nil =>
    rw [hsort] at hs
    exact absurd hs (List.not_mem_nil s)
  | cons first rest =>
    rw [hsort] at hs
    refine greedyLoop_key_prop (fun k => k ∉ visitedSet) _ (targetNew - 1)
      [first] rest (fun t ht => ?_) (fun t ht => ?_) s hs
    · rw [List.mem_singleton] at ht
      subst ht
      exact hscored t (by
        rw [← mem_sortDesc (·.score), hsort]
        exact List.mem_cons_self _ _)
    · exact hscored t (by
        rw [← mem_sortDesc (·.score), hsort]
        exact List.mem_cons.mpr (Or.inr ht))

set_option maxRecDepth 10000 in
theorem claim_C5_witness :
    c5selected.getD 0 default ∈ c5selected ∧
    (c5selected.getD 0 default).key ∉ c5visited :=
  ⟨by decide,
    claim_C5_selected_not_visited ⟨0, 0, 0, 0⟩ 2 (some [Dir.N]) c5visited
      "balanced" 5 (c5selected.getD 0 default) (by decide)⟩

set_option maxRecDepth 10000 in
/-- C6: with a proper subset of the four directions selected, a candidate
matching none of them stays in the scored candidate list (scoring is a map
over the unvisited candidates, nothing is removed) with exactly a 1,000,000
point penalty against its direction-free score; and on a concrete input such
a penalized candidate is still selected. -/
theorem claim_C6_direction_penalty_not_removal (base : GridBounds)
    (visitedSet : List CellKey) (dirs : List Dir) (optimizationMode : String)
    (maxHoleSize : Nat) (c : Candidate)
    (hc : c ∈ unvisitedCandidates base visitedSet)
    (hlen : dirs.length < 4)
    (hmatch : matchesAnyDirection base dirs c.key = false) :
    (scoreCandidate base visitedSet (some dirs) optimizationMode maxHoleSize c ∈
      scoredList base visitedSet (some dirs) optimizationMode maxHoleSize) ∧
    (scoreCandidate base visitedSet (some dirs) optimizationMode maxHoleSize c).score =
      (scoreCandidate base visitedSet none optimizationMode maxHoleSize c).score
        - 1000000 ∧
    (∃ s ∈ c5selected, matchesAnyDirection ⟨0, 0, 0, 0⟩ [Dir.N] s.key = false) := by
  refine ⟨?_, ?_, ?_⟩
  · rw [scoredList]
    exact List.mem_map_of_mem _ hc
  · simp only [scoreCandidate]
    rw [if_pos hlen, if_neg (by rw [hmatch]; exact Bool.false_ne_true)]
  · decide

set_option maxRecDepth 10000 in
theorem claim_C6_witness :
    ((⟨0, 0, []⟩ : Candidate) ∈ unvisitedCandidates ⟨0, 0, 0, 0⟩ c5visited) ∧
    ([Dir.N] : List Dir).length < 4 ∧
    matchesAnyDirection ⟨0, 0, 0, 0⟩ [Dir.N] (Candidate.key ⟨0, 0, []⟩) = false ∧
    ((scoreCandidate ⟨0, 0, 0, 0⟩ c5visited (some [Dir.N]) "balanced" 5
        ⟨0, 0, []⟩ ∈
      scoredList ⟨0, 0, 0, 0⟩ c5visited (some [Dir.N]) "balanced" 5) ∧
    (scoreCandidate ⟨0, 0, 0, 0⟩ c5visited (some [Dir.N]) "balanced" 5
        ⟨0, 0, []⟩).score =
      (scoreCandidate ⟨0, 0, 0, 0⟩ c5visited none "balanced" 5
        ⟨0, 0, []⟩).score - 1000000 ∧
    (∃ s ∈ c5selected, matchesAnyDirection ⟨0, 0, 0, 0⟩ [Dir.N] s.key = false)) := by
  refine ⟨?hc, by decide, ?hm, ?main⟩
  case hc => decide
  case hm => decide
  case main =>
    exact claim_C6_direction_penalty_not_removal ⟨0, 0, 0, 0⟩ c5visited [Dir.N]
      "balanced" 5 ⟨0, 0, []⟩ (by decide) (by decide) (by decide)

end UberSq
